import Mathlib

/-!
Shallow embedding of the antiphishing content-intake service core
(cache client, language confidence resolver, redirect resolution engine,
analysis orchestrator) together with theorems checking the behavioural
claims of its specification.

Sources embedded (faithful to the TypeScript, not to the spec's prose):
* `src/language/language.service.ts` — `LanguageService` (final version, with the
  supported-language whitelist, `COMMON_WORDS` dictionaries, `detect`,
  `findBestLanguageByWords`, `calculateLanguageWordRatio`).
* `src/cache/cache.service.ts` — `CacheService` (`get`/`set`/`delete`/`isHealthy`,
  connectivity flag, `initializeRedis` topology selection).
* `src/analyze/redirect.service.ts` — `RedirectService.followRedirects`.
* `src/analyze/analyze.service.ts` (redirect-integrated version) —
  `AnalyzeService.analyze`, `extractUrls`, `buildAnalysis`, `buildResponse`.

Modelling conventions:
* JavaScript numbers are modelled as `Rat`/`Int`/`Nat` (`Math.round` is
  round-half-up, `Math.max/min` clamping is `max`/`min`).
* External collaborators (the `franc` detector, `linkify-it` URL matcher,
  phone/IP extractors, the HTTP transport, the shortener-domain table) are
  parameters of the model: the spec declares them out-of-scope collaborators
  specified only at their interface boundary.
* Fallible JS operations are modelled with `Except`/`Option`; `try`/`catch`
  blocks become explicit `match`es on those results.
-/

set_option maxRecDepth 10000

namespace Antiphishing

/-! ## Shared helpers -/

/-- JavaScript `Math.round`: round half away from zero towards `+∞`
(`Math.round(x) = ⌊x + 1/2⌋`). All uses in the source are on non-negative
values. -/
def jsRound (q : Rat) : Int := ⌊q + 1 / 2⌋

/-- The `Math.max(0, Math.min(100, n))` as used for confidence clamping. -/
def clamp0100 (n : Int) : Int := max 0 (min 100 n)

/-- The `[...new Set(xs)]` in JavaScript: deduplicate keeping the first
occurrence of each element, preserving order. -/
def dedupFirst : List String → List String
  | [] => []
  | x :: xs => x :: dedupFirst (xs.filter (fun y => y ≠ x))
termination_by l => l.length
decreasing_by
  simp only [List.length_cons]
  exact Nat.lt_succ_of_le (List.length_filter_le _ _)

/-! ## Language Confidence Resolver (`language.service.ts`)

The statistical detector `francAll(content, {minLength: 1})` is an external
collaborator; its output (an ordered candidate list of `(languageCode, score)`
pairs, best first, scores in `[0,1]`) is a parameter `francOut` of `detect`.
-/

/-- The `SUPPORTED_LANGUAGES` of `language.service.ts`. -/
def SUPPORTED_LANGUAGES : List String := ["eng", "fra", "nld", "deu", "pol", "spa", "ita", "por"]

/-- The `eng` common-word dictionary of `COMMON_WORDS` in `language.service.ts`. -/
def commonWords_eng : List String := [
  "the", "be", "to", "of", "and", "a", "in", "that", "have", "it",
  "for", "not", "on", "with", "he", "as", "you", "do", "at", "this",
  "but", "his", "by", "from", "they", "we", "say", "her", "she", "or",
  "an", "will", "my", "one", "all", "would", "there", "their", "what", "so",
  "up", "out", "if", "about", "who", "get", "which", "go", "me", "when",
  "make", "can", "like", "time", "no", "just", "him", "know", "take", "people",
  "into", "year", "your", "good", "some", "could", "them", "see", "other", "than",
  "then", "now", "look", "only", "come", "its", "over", "think", "also", "back",
  "after", "use", "two", "how", "our", "work", "first", "well", "way", "even",
  "new", "want", "because", "any", "these", "give", "day", "most", "us", "is",
  "was", "are", "been", "has", "had", "were", "said", "did", "having", "test",
  "message", "structure", "validation", "hello", "world", "please", "thank"
]

/-- The `fra` common-word dictionary of `COMMON_WORDS` in `language.service.ts`. -/
def commonWords_fra : List String := [
  "le", "de", "un", "être", "et", "à", "il", "avoir", "ne", "je",
  "son", "que", "se", "qui", "ce", "dans", "en", "du", "elle", "au",
  "pour", "pas", "que", "vous", "par", "sur", "faire", "plus", "dire", "me",
  "on", "mon", "lui", "nous", "comme", "mais", "pouvoir", "avec", "tout", "y",
  "aller", "voir", "en", "bien", "où", "sans", "tu", "ou", "leur", "homme",
  "si", "deux", "même", "autre", "dans", "toujours", "très", "quoi", "moins", "dont",
  "chose", "peu", "tous", "vie", "ses", "encore", "vouloir", "chez", "aussi", "avant",
  "grand", "depuis", "sous", "après", "peuvent", "contre", "bonjour", "merci", "message", "test",
  "info", "pour", "contact", "agence"
]

/-- The `nld` common-word dictionary of `COMMON_WORDS` in `language.service.ts`. -/
def commonWords_nld : List String := [
  "de", "het", "een", "van", "en", "in", "zijn", "dat", "te", "op",
  "voor", "met", "die", "aan", "niet", "als", "ook", "maar", "uit", "hebben",
  "of", "was", "door", "er", "kan", "bij", "worden", "ze", "worden", "om",
  "naar", "nog", "dan", "deze", "hij", "worden", "wel", "meer", "hun", "zou",
  "zijn", "over", "al", "worden", "dit", "geen", "zich", "tot", "alleen", "onder",
  "jaar", "twee", "tussen", "nu", "daar", "kunnen", "mensen", "alles", "veel", "zo",
  "andere", "wij", "nieuw", "waar", "hallo", "dank", "bericht", "test", "info", "contact"
]

/-- The `deu` common-word dictionary of `COMMON_WORDS` in `language.service.ts`. -/
def commonWords_deu : List String := [
  "der", "die", "und", "in", "den", "von", "zu", "das", "mit", "sich",
  "des", "auf", "für", "ist", "im", "dem", "nicht", "ein", "eine", "als",
  "auch", "es", "an", "werden", "aus", "er", "hat", "dass", "sie", "nach",
  "wird", "bei", "einer", "um", "am", "sind", "noch", "wie", "einem", "über",
  "einen", "so", "zum", "war", "haben", "nur", "oder", "aber", "vor", "zur",
  "bis", "mehr", "durch", "man", "sein", "wurde", "sei", "kann", "gegen", "vom",
  "können", "schon", "wenn", "hallo", "danke", "nachricht", "test", "info", "kontakt"
]

/-- The `pol` common-word dictionary of `COMMON_WORDS` in `language.service.ts`. -/
def commonWords_pol : List String := [
  "w", "i", "na", "z", "do", "nie", "się", "że", "to", "o",
  "jest", "jest", "po", "dla", "co", "jak", "się", "za", "od", "jego",
  "tylko", "być", "przy", "ma", "przez", "ale", "tak", "ze", "czy", "może",
  "tym", "aby", "już", "bardzo", "pan", "tej", "został", "będzie", "była", "może",
  "można", "nad", "pod", "przed", "też", "gdy", "mnie", "więc", "bez", "lub",
  "był", "kiedy", "oraz", "wszystko", "świat", "gdzie", "dwa", "wszystkie", "cześć", "dziękuję",
  "wiadomość", "test", "info", "kontakt"
]

/-- The `spa` common-word dictionary of `COMMON_WORDS` in `language.service.ts`. -/
def commonWords_spa : List String := [
  "de", "la", "que", "el", "en", "y", "a", "los", "se", "del",
  "las", "un", "por", "con", "no", "una", "su", "para", "es", "al",
  "lo", "como", "más", "o", "pero", "sus", "le", "ha", "me", "si",
  "sin", "sobre", "este", "ya", "entre", "cuando", "todo", "esta", "ser", "son",
  "dos", "también", "fue", "había", "era", "muy", "años", "hasta", "desde", "está",
  "mi", "porque", "qué", "sólo", "han", "yo", "hay", "vez", "puede", "todos",
  "así", "nos", "ni", "parte", "tiene", "él", "uno", "donde", "bien", "tiempo",
  "mismo", "ese", "hola", "gracias", "mensaje", "test", "info", "contacto"
]

/-- The `ita` common-word dictionary of `COMMON_WORDS` in `language.service.ts`. -/
def commonWords_ita : List String := [
  "di", "il", "e", "la", "a", "che", "per", "un", "in", "è",
  "non", "si", "da", "con", "i", "una", "le", "questo", "del", "sono",
  "essere", "al", "più", "su", "come", "ma", "anche", "alla", "stato", "delle",
  "nel", "gli", "dalla", "cui", "ai", "quale", "hanno", "ha", "questa", "dei",
  "tutti", "stesso", "nella", "era", "molto", "loro", "ancora", "altri", "così", "quella",
  "suo", "fare", "solo", "anni", "due", "tutto", "dello", "nei", "quello", "sempre",
  "parte", "dove", "tempo", "alle", "ogni", "quando", "già", "ogni", "fatto", "può",
  "deve", "ciao", "grazie", "messaggio", "test", "info", "contatto"
]

/-- The `por` common-word dictionary of `COMMON_WORDS` in `language.service.ts`. -/
def commonWords_por : List String := [
  "de", "a", "o", "que", "e", "do", "da", "em", "um", "para",
  "é", "com", "não", "uma", "os", "no", "se", "na", "por", "mais",
  "as", "dos", "como", "mas", "foi", "ao", "ele", "das", "tem", "à",
  "seu", "sua", "ou", "ser", "quando", "muito", "há", "nos", "já", "está",
  "eu", "também", "só", "pelo", "pela", "até", "isso", "ela", "entre", "era",
  "depois", "sem", "mesmo", "aos", "ter", "seus", "quem", "nas", "me", "esse",
  "eles", "estão", "você", "tinha", "foram", "essa", "num", "nem", "suas", "meu",
  "às", "minha", "têm", "numa", "pelos", "elas", "havia", "olá", "obrigado", "mensagem",
  "teste", "info", "contato"
]

/-- The `COMMON_WORDS` of `language.service.ts`: map from supported language code
to its common-word dictionary (association list in insertion order). -/
def COMMON_WORDS : List (String × List String) := [
  ("eng", commonWords_eng), ("fra", commonWords_fra), ("nld", commonWords_nld),
  ("deu", commonWords_deu), ("pol", commonWords_pol), ("spa", commonWords_spa),
  ("ita", commonWords_ita), ("por", commonWords_por)
]

/-- JavaScript `String.prototype.toLowerCase`, restricted to the character
ranges that can occur in this service's inputs and dictionaries: ASCII,
Latin-1 uppercase letters, and the Polish Latin-Extended-A uppercase letters.
Other characters are left unchanged. -/
def jsToLower (c : Char) : Char :=
  if ('A' ≤ c ∧ c ≤ 'Z') ∨ ('À' ≤ c ∧ c ≤ 'Þ' ∧ c ≠ '×') then Char.ofNat (c.toNat + 32)
  else if c ∈ ['Ą', 'Ć', 'Ę', 'Ł', 'Ń', 'Ś', 'Ź', 'Ż'] then Char.ofNat (c.toNat + 1)
  else c

/-- Unicode NFD decomposition (`String.prototype.normalize('NFD')`) for the
precomposed lowercase Latin letters reachable after `jsToLower`; each maps to
its base letter followed by a combining mark in `U+0300 – U+036F`.
Characters without a canonical decomposition (including `ł` and `ß`) map to
themselves. -/
def nfdChar (c : Char) : List Char :=
  match c with
  | 'à' => ['a', Char.ofNat 0x300]
  | 'è' => ['e', Char.ofNat 0x300]
  | 'ì' => ['i', Char.ofNat 0x300]
  | 'ò' => ['o', Char.ofNat 0x300]
  | 'ù' => ['u', Char.ofNat 0x300]
  | 'á' => ['a', Char.ofNat 0x301]
  | 'é' => ['e', Char.ofNat 0x301]
  | 'í' => ['i', Char.ofNat 0x301]
  | 'ó' => ['o', Char.ofNat 0x301]
  | 'ú' => ['u', Char.ofNat 0x301]
  | 'ý' => ['y', Char.ofNat 0x301]
  | 'ć' => ['c', Char.ofNat 0x301]
  | 'ń' => ['n', Char.ofNat 0x301]
  | 'ś' => ['s', Char.ofNat 0x301]
  | 'ź' => ['z', Char.ofNat 0x301]
  | 'â' => ['a', Char.ofNat 0x302]
  | 'ê' => ['e', Char.ofNat 0x302]
  | 'î' => ['i', Char.ofNat 0x302]
  | 'ô' => ['o', Char.ofNat 0x302]
  | 'û' => ['u', Char.ofNat 0x302]
  | 'ã' => ['a', Char.ofNat 0x303]
  | 'ñ' => ['n', Char.ofNat 0x303]
  | 'õ' => ['o', Char.ofNat 0x303]
  | 'ä' => ['a', Char.ofNat 0x308]
  | 'ë' => ['e', Char.ofNat 0x308]
  | 'ï' => ['i', Char.ofNat 0x308]
  | 'ö' => ['o', Char.ofNat 0x308]
  | 'ü' => ['u', Char.ofNat 0x308]
  | 'ÿ' => ['y', Char.ofNat 0x308]
  | 'å' => ['a', Char.ofNat 0x30a]
  | 'ç' => ['c', Char.ofNat 0x327]
  | 'ą' => ['a', Char.ofNat 0x328]
  | 'ę' => ['e', Char.ofNat 0x328]
  | 'ż' => ['z', Char.ofNat 0x307]
  | _ => [c]

/-- The combining-diacritical-marks block matched by `/[̀-ͯ]/`. -/
def isCombiningMark (c : Char) : Bool := 0x300 ≤ c.toNat ∧ c.toNat ≤ 0x36f

/-- JavaScript regex `\s` (whitespace class). -/
def isJsSpace (c : Char) : Bool :=
  c = ' ' ∨ c = Char.ofNat 0x9 ∨ c = Char.ofNat 0xa ∨ c = Char.ofNat 0xb ∨
  c = Char.ofNat 0xc ∨ c = Char.ofNat 0xd ∨ c = Char.ofNat 0xa0 ∨
  c = Char.ofNat 0x1680 ∨ (0x2000 ≤ c.toNat ∧ c.toNat ≤ 0x200a) ∨
  c = Char.ofNat 0x2028 ∨ c = Char.ofNat 0x2029 ∨ c = Char.ofNat 0x202f ∨
  c = Char.ofNat 0x205f ∨ c = Char.ofNat 0x3000 ∨ c = Char.ofNat 0xfeff

/-- The `String.prototype.split(/\s+/)` with empty fragments discarded
(the source immediately filters by `length > 1`, so empty fragments are
irrelevant either way). `acc` is the reversed current fragment. -/
def splitWordsAux : List Char → List Char → List String
  | [], acc => if acc.isEmpty then [] else [String.mk acc.reverse]
  | c :: cs, acc =>
    if isJsSpace c then
      if acc.isEmpty then splitWordsAux cs []
      else String.mk acc.reverse :: splitWordsAux cs []
    else splitWordsAux cs (c :: acc)

/-- The word-token pipeline of `calculateLanguageWordRatio`:
`content.toLowerCase().normalize('NFD').replace(/[̀-ͯ]/g, '')
.replace(/[^a-z\s]/g, ' ').split(/\s+/).filter(w => w.length > 1)`. -/
def extractWordTokens (content : String) : List String :=
  let lowered := content.toList.map jsToLower
  let decomposed := (lowered.map nfdChar).flatten
  let stripped := decomposed.filter (fun c => !(isCombiningMark c))
  let blanked := stripped.map (fun c => if ('a' ≤ c ∧ c ≤ 'z') ∨ isJsSpace c then c else ' ')
  (splitWordsAux blanked []).filter (fun w => w.length > 1)

/-- The ratio computation of `calculateLanguageWordRatio` against an explicit
dictionary: `matchingWords / words.length` (0 when there are no words). -/
def wordRatioAgainst (content : String) (dict : List String) : Rat :=
  let words := extractWordTokens content
  if words.isEmpty then 0
  else ((words.filter (fun w => dict.contains w)).length : Rat) / (words.length : Rat)

/-- The `calculateLanguageWordRatio` of `language.service.ts` (suffix `Q` marks
the rational-number model of the JS float): dictionary lookup in
`COMMON_WORDS`, 0 for an unknown language. -/
def calculateLanguageWordRatioQ (content : String) (language : String) : Rat :=
  match COMMON_WORDS.find? (fun p => p.1 = language) with
  | none => 0
  | some p => wordRatioAgainst content p.2

/-- The record built by `findBestLanguageByWords` (field `wordRatioQ` models
the source's `wordRatio`). -/
structure BestMatch where
  language : String
  confidence : Int
  wordRatioQ : Rat
deriving Repr, DecidableEq

/-- One iteration of the candidate loop in `findBestLanguageByWords`:
skip unsupported languages, require `wordRatio > 0.3`, keep the candidate with
the strictly highest ratio (first seen wins ties). -/
def considerCandidate (content : String) (best : Option BestMatch) (p : String × Rat) :
    Option BestMatch :=
  if p.1 ∈ SUPPORTED_LANGUAGES then
    let wr := calculateLanguageWordRatioQ content p.1
    if wr > 3 / 10 then
      let langConfidence := clamp0100 (jsRound (p.2 * 100))
      match best with
      | none => some ⟨p.1, langConfidence, wr⟩
      | some b => if wr > b.wordRatioQ then some ⟨p.1, langConfidence, wr⟩ else some b
    else best
  else best

/-- The `findBestLanguageByWords` of `language.service.ts`. -/
def findBestLanguageByWords (content : String) (francResults : List (String × Rat)) :
    Option BestMatch :=
  francResults.foldl (considerCandidate content) none

/-- The `LanguageDetectionResult` of `language.service.ts`. -/
structure LanguageDetectionResult where
  language : String
  confidence : Int
deriving Repr, DecidableEq

/-- The `!content || content.trim().length === 0`: the content is empty or
whitespace-only (JS `trim` strips the `\s` class). -/
def isBlankContent (content : String) : Bool := content.toList.all isJsSpace

/-- The `LanguageService.detect`, parametrised by the detector output
`francOut = francAll(content, {minLength: 1})`. -/
def detect (content : String) (francOut : List (String × Rat)) : LanguageDetectionResult :=
  if isBlankContent content then ⟨"unknown", 0⟩
  else
    match francOut with
    | [] => ⟨"unknown", 0⟩
    | (l0, _) :: _ =>
      if l0 = "und" then ⟨"unknown", 0⟩
      else
        match francOut.filter (fun p => p.1 ∈ SUPPORTED_LANGUAGES) with
        | [] => ⟨"unknown", 0⟩
        | (detectedLang, score) :: _ =>
          let confidence := clamp0100 (jsRound (score * 100))
          if confidence < 15 then
            match findBestLanguageByWords content
                (francOut.filter (fun p => p.1 ∈ SUPPORTED_LANGUAGES)) with
            | some b => ⟨b.language, b.confidence⟩
            | none => ⟨detectedLang, confidence⟩
          else ⟨detectedLang, confidence⟩

/-! ## Data model of the orchestrator (`analyze-response.dto.ts`) and the
redirect engine. -/

/-- The `{finalUrl, redirectCount}` record produced by
`RedirectService.followRedirects`. -/
structure RedirectOutcome where
  finalUrl : String
  redirectCount : Nat
deriving Repr, DecidableEq

/-- The `EnhancedAnalysisDto`: placeholder risk metrics (all fixed zero/empty)
plus the extracted/resolved lists. -/
structure EnhancedAnalysisDto where
  keyword_density : Nat
  message_length_risk : Nat
  mixed_content_risk : Nat
  caps_ratio_risk : Nat
  total_context_risk : Nat
  burst_pattern_risk : Nat
  off_hours_risk : Nat
  weekend_spike : Nat
  total_temporal_risk : Nat
  suspicious_tld : String
  phishing_keywords : List String
  urls : List String
  phones : List String
  public_ips : List String
  shortener_used : List String
deriving Repr, DecidableEq

/-- The `AnalysisDto`: the per-request analysis object cached by the
orchestrator. -/
structure AnalysisDto where
  language : String
  lang_certainity : Int
  cached : Bool
  processing_time_ms : Nat
  risk_level : Nat
  triggers : List String
  enhanced : EnhancedAnalysisDto
deriving Repr, DecidableEq

/-- The `AnalyzeResponseDto`: the response wrapper assembled by
`buildResponse`. -/
structure AnalyzeResponseDto where
  status : String
  certainity : Nat
  message : String
  customer_whitelisted : Bool
  analysis : AnalysisDto
deriving Repr, DecidableEq

/-! ## Key-Value Cache Client (`cache.service.ts`)

The backing Redis keyspace is modelled as two typed association lists
(analysis results keyed by `generateHash(content)`, redirect outcomes keyed
by `generateHash('redirect:' + url)`) carrying absolute expiry instants, plus
the client's `isConnected` flag and a per-operation transport-failure oracle
standing for rejected `ioredis` promises. The source stores both value kinds
in one keyspace under MD5 digests of those same key strings; `generateHash`
is modelled as an injective key transform, which is what the spec demands of
it ("only uniform distribution and determinism", no collision-resistance).
Timestamps are in seconds, matching `setex` TTLs. -/

/-- The `generateHash` of `common/utils/hash.util.ts` (an MD5 hex digest in the
source), modelled as an injective, deterministic key transform. -/
def generateHash (input : String) : String := input

/-- One expirable store: association list from key to value and absolute
expiry instant. -/
abbrev StoreOf (α : Type) : Type := List (String × α × Nat)

/-- Redis `GET` against one store: the value if present and not yet expired
(`setex k ttl v` at time `t` expires at `t + ttl`; a `GET` strictly before
that instant hits). -/
def storeLookup {α : Type} (store : StoreOf α) (now : Nat) (key : String) : Option α :=
  match store.find? (fun e => e.1 = key) with
  | some e => if now < e.2.2 then some e.2.1 else none
  | none => none

/-- Redis `SETEX`: overwrite the key with a fresh value and expiry. -/
def storeInsert {α : Type} (store : StoreOf α) (key : String) (v : α) (expiresAt : Nat) :
    StoreOf α :=
  (key, v, expiresAt) :: store.filter (fun e => e.1 ≠ key)

/-- Redis `DEL`. -/
def storeErase {α : Type} (store : StoreOf α) (key : String) : StoreOf α :=
  store.filter (fun e => e.1 ≠ key)

/-- The cache client state: connectivity flag (`isConnected`, driven by the
connect/ready/error/close event handlers), a transport-failure oracle for
each operation kind (a `true` flag makes the corresponding Redis command
reject, as a dropped connection or timeout would), the reply `PING` would
produce, and the two typed views of the keyspace. -/
structure CacheState where
  isConnected : Bool
  failGet : Bool
  failSet : Bool
  failDel : Bool
  failPing : Bool
  pingReply : String
  analysisStore : StoreOf AnalysisDto
  redirectStore : StoreOf RedirectOutcome

/-- The `this.redis.get(key)` for an analysis-typed key: either a transport
error (rejected promise) or the stored value. -/
def redisGetAnalysis (st : CacheState) (now : Nat) (key : String) :
    Except Unit (Option AnalysisDto) :=
  if st.failGet then .error () else .ok (storeLookup st.analysisStore now key)

/-- The `this.redis.get(key)` for a redirect-typed key. -/
def redisGetRedirect (st : CacheState) (now : Nat) (key : String) :
    Except Unit (Option RedirectOutcome) :=
  if st.failGet then .error () else .ok (storeLookup st.redirectStore now key)

/-- The `CacheService.get<AnalysisDto>`: `null` when not connected (fail fast,
no queuing), the `try`/`catch` maps any transport error to `null`. -/
def cacheGetAnalysis (st : CacheState) (now : Nat) (content : String) : Option AnalysisDto :=
  if !st.isConnected then none
  else
    match redisGetAnalysis st now (generateHash content) with
    | .error _ => none
    | .ok v => v

/-- The `CacheService.get<RedirectOutcome>` (the redirect engine's view). -/
def cacheGetRedirect (st : CacheState) (now : Nat) (keyStr : String) : Option RedirectOutcome :=
  if !st.isConnected then none
  else
    match redisGetRedirect st now (generateHash keyStr) with
    | .error _ => none
    | .ok v => v

/-- The `this.redis.setex(key, ttl, value)` for an analysis value. -/
def redisSetexAnalysis (st : CacheState) (now : Nat) (key : String) (ttl : Nat)
    (v : AnalysisDto) : Except Unit CacheState :=
  if st.failSet then .error ()
  else .ok { st with analysisStore := storeInsert st.analysisStore key v (now + ttl) }

/-- The `this.redis.setex(key, ttl, value)` for a redirect outcome. -/
def redisSetexRedirect (st : CacheState) (now : Nat) (key : String) (ttl : Nat)
    (v : RedirectOutcome) : Except Unit CacheState :=
  if st.failSet then .error ()
  else .ok { st with redirectStore := storeInsert st.redirectStore key v (now + ttl) }

/-- The `CacheService.set` for an analysis value: skipped when not connected,
and a transport error is swallowed (`catch` leaves the state unchanged). -/
def cacheSetAnalysis (st : CacheState) (now : Nat) (content : String) (v : AnalysisDto)
    (ttl : Nat) : CacheState :=
  if !st.isConnected then st
  else
    match redisSetexAnalysis st now (generateHash content) ttl v with
    | .error _ => st
    | .ok st' => st'

/-- The `CacheService.set` for a redirect outcome. -/
def cacheSetRedirect (st : CacheState) (now : Nat) (keyStr : String) (v : RedirectOutcome)
    (ttl : Nat) : CacheState :=
  if !st.isConnected then st
  else
    match redisSetexRedirect st now (generateHash keyStr) ttl v with
    | .error _ => st
    | .ok st' => st'

/-- The `this.redis.del(key)` (the analysis-typed view; `delete` is only ever
called with content keys). -/
def redisDel (st : CacheState) (key : String) : Except Unit CacheState :=
  if st.failDel then .error ()
  else .ok { st with analysisStore := storeErase st.analysisStore key }

/-- The `CacheService.delete`: skipped when not connected, errors swallowed. -/
def cacheDelete (st : CacheState) (content : String) : CacheState :=
  if !st.isConnected then st
  else
    match redisDel st (generateHash content) with
    | .error _ => st
    | .ok st' => st'

/-- The `this.redis.ping()`. -/
def redisPing (st : CacheState) : Except Unit String :=
  if st.failPing then .error () else .ok st.pingReply

/-- The `CacheService.isHealthy`: `false` when not connected, otherwise `true`
exactly when `PING` answers `'PONG'`; a transport error maps to `false`. -/
def isHealthy (st : CacheState) : Bool :=
  if !st.isConnected then false
  else
    match redisPing st with
    | .error _ => false
    | .ok r => r = "PONG"

/-! ### Connection topology selection (`initializeRedis`) -/

/-- The configuration slice read by `initializeRedis` (`configuration.ts`). -/
structure RedisConfig where
  nodeEnv : String
  host : String
  port : Nat
  sentinelHosts : List String
  masterName : String
  tlsEnabled : Bool
deriving Repr, DecidableEq

/-- The two connection topologies the client can build. -/
inductive RedisTopology where
  | sentinel (sentinels : List (String × Nat)) (masterName : String) (tls : Bool)
  | direct (host : String) (port : Nat)
deriving Repr, DecidableEq

/-- The `host.split(':')` into hostname and `parseInt(port, 10)` as in
`initializeSentinel` (an unparsable port is modelled as 0). -/
def parseSentinelHost (s : String) : String × Nat :=
  let hostname := s.takeWhile (fun c => c ≠ ':')
  let port := (s.drop (hostname.length + 1)).toNat?.getD 0
  (hostname, port)

/-- The `initializeRedis`: Sentinel is chosen only when `nodeEnv === 'production'`
and the configured Sentinel host list is non-empty; otherwise a direct
connection to `redis.host:redis.port`. -/
def initializeRedis (cfg : RedisConfig) : RedisTopology :=
  if cfg.nodeEnv = "production" ∧ cfg.sentinelHosts ≠ [] then
    .sentinel (cfg.sentinelHosts.map parseSentinelHost) cfg.masterName cfg.tlsEnabled
  else
    .direct cfg.host cfg.port

/-- Discriminator for the Sentinel topology. -/
def RedisTopology.isSentinel : RedisTopology → Bool
  | .sentinel _ _ _ => true
  | .direct _ _ => false

/-! ### JavaScript string primitives, modelled over character lists so that
they are kernel-reducible and lemma-friendly. -/

/-- The `String.prototype.startsWith`. -/
def strStartsWith (s p : String) : Bool := p.toList.isPrefixOf s.toList

/-- The `String.prototype.endsWith`. -/
def strEndsWith (s p : String) : Bool := p.toList.isSuffixOf s.toList

/-- The `String.prototype.substring(n)` / dropping a known prefix. -/
def strDrop (s : String) (n : Nat) : String := String.mk (s.toList.drop n)

/-- The longest prefix of characters satisfying `p`. -/
def strTakeWhile (s : String) (p : Char → Bool) : String := String.mk (s.toList.takeWhile p)

/-! ## Redirect Resolution Engine (`redirect.service.ts`)

The outbound HTTP transport is an external collaborator: a probe of a URL
either yields a response (status plus optional `location` header) or fails
transport-wise (network error, timeout, unsupported method), modelled by
`ProbeResult`. `axios` with `validateStatus: s => 200 <= s && s < 400` and
`maxRedirects: 0` additionally rejects (throws) on any status outside
`[200, 400)`. `followRedirects` also returns the list of URLs probed over
the network, so that "no network I/O on a cache hit" is observable. The
outer `try`/`catch` of the source wraps only operations that are total in
this model (cache `get`/`set` never throw, probe exceptions are caught by
the inner handlers), so its `catch` branch is unreachable and the body is
modelled directly. -/

/-- Result of one network probe (HEAD or range-limited GET) of a URL. -/
inductive ProbeResult where
  | resp (status : Nat) (location : Option String)
  | err
deriving Repr, DecidableEq

/-- The HTTP transport: what a HEAD probe and what a range-limited GET probe
of each URL yield. -/
structure HttpEnv where
  head : String → ProbeResult
  getRange : String → ProbeResult

/-- The `MAX_REDIRECTS` of `redirect.service.ts`. -/
def MAX_REDIRECTS : Nat := 10

/-- The `CACHE_TTL` of `redirect.service.ts` (24 hours, in seconds). -/
def REDIRECT_CACHE_TTL : Nat := 86400

/-- The `CACHE_PREFIX` of `redirect.service.ts`. -/
def REDIRECT_CACHE_NS : String := "redirect:"

/-- ASCII lowercasing of one hostname character (the WHATWG URL parser
lowercases the host; IDNA/punycode handling of non-ASCII hosts is outside
the modelled input range). -/
def hostLowerChar (c : Char) : Char :=
  if 'A' ≤ c ∧ c ≤ 'Z' then Char.ofNat (c.toNat + 32) else c

/-- Strip the userinfo of an authority: the host-port part is everything
after the last `'@'` (the WHATWG parser splits userinfo at the last
`'@'`). -/
def dropUserinfo (auth : List Char) : List Char :=
  (auth.reverse.takeWhile (fun c => c ≠ '@')).reverse

/-- Split a host-port into hostname and port: an IPv6 literal `[…]` keeps
its brackets in the hostname and the port follows the closing bracket;
otherwise the hostname ends at the first `':'`. -/
def splitHostPort (hp : List Char) : List Char × List Char :=
  match hp with
  | '[' :: rest =>
    let inner := rest.takeWhile (fun c => c ≠ ']')
    let after := rest.drop (inner.length + 1)
    let port :=
      match after with
      | ':' :: p => p
      | _ => []
    ('[' :: (inner ++ [']']), port)
  | _ =>
    let hn := hp.takeWhile (fun c => c ≠ ':')
    (hn, hp.drop (hn.length + 1))

/-- The fields of `new URL(u)` the source reads: `protocol`, `host`
(hostname plus any port, as spliced back into relative locations by
`followRedirects`), `hostname` (userinfo and port stripped, lowercased — the
value `extractUrls` checks against the shortener table), and `pathname`.
Parse failure (`none`) models the `URL` constructor throwing. Only
`http:`/`https:` URLs occur here (the caller prepends `http://` when no
protocol is present); query and fragment are excluded from `pathname` as in
the WHATWG URL class. Default-port elision and percent/IDNA normalisation
are not modelled. -/
structure UrlParts where
  protocol : String
  host : String
  hostname : String
  pathname : String
deriving Repr, DecidableEq

/-- Parse a URL string into the fields used by the source. -/
def parseUrl (s : String) : Option UrlParts :=
  let rest :=
    if strStartsWith s "http://" then some ("http:", strDrop s 7)
    else if strStartsWith s "https://" then some ("https:", strDrop s 8)
    else none
  match rest with
  | none => none
  | some (proto, r) =>
    let authority := strTakeWhile r (fun c => c ≠ '/' ∧ c ≠ '?' ∧ c ≠ '#')
    if authority = "" then none
    else
      let hp := splitHostPort (dropUserinfo authority.toList)
      let hn := hp.1.map hostLowerChar
      if hn.isEmpty then none
      else
        let hostname := String.mk hn
        let host := if hp.2.isEmpty then hostname else hostname ++ ":" ++ String.mk hp.2
        let tail := strTakeWhile (strDrop r authority.length) (fun c => c ≠ '?' ∧ c ≠ '#')
        let pathname := if tail = "" then "/" else tail
        some ⟨proto, host, hostname, pathname⟩

/-- The `urlObj.pathname.substring(0, urlObj.pathname.lastIndexOf('/') + 1)`:
everything up to and including the last `'/'` (empty when there is none). -/
def dirOf (p : String) : String :=
  String.mk ((p.toList.reverse.dropWhile (fun c => c ≠ '/')).reverse)

/-- The relative-`location` resolution of `followRedirects`: absolute
locations verbatim, root-relative against scheme+host, other forms against
the base directory of the current URL's path. `none` models the `new
URL(currentUrl)` constructor throwing (which the enclosing `try` turns into
the probe-failure path). -/
def resolveLocation (current location : String) : Option String :=
  if strStartsWith location "http://" ∨ strStartsWith location "https://" then some location
  else if strStartsWith location "/" then
    match parseUrl current with
    | none => none
    | some u => some (u.protocol ++ "//" ++ u.host ++ location)
  else
    match parseUrl current with
    | none => none
    | some u => some (u.protocol ++ "//" ++ u.host ++ dirOf u.pathname ++ location)

/-- JavaScript truthiness of `response.headers.location`: an absent or empty
header does not count as a redirect target. -/
def locTruthy (l : Option String) : Option String :=
  match l with
  | none => none
  | some s => if s = "" then none else some s

/-- Outcome of evaluating one probe attempt inside its `try` block. -/
inductive Attempt where
  | threw
  | final
  | redirect (next : String)
deriving Repr, DecidableEq

/-- Evaluate one probe of `current`: a transport error or a status outside
`[200, 400)` throws; a `3xx` with a (truthy) `location` header follows it
(where an unparsable `current` with a relative location also throws); any
other accepted response is final. -/
def evalProbe (r : ProbeResult) (current : String) : Attempt :=
  match r with
  | .err => .threw
  | .resp status loc =>
    if 200 ≤ status ∧ status < 400 then
      match locTruthy loc with
      | some l =>
        if 300 ≤ status ∧ status < 400 then
          match resolveLocation current l with
          | some next => .redirect next
          | none => .threw
        else .final
      | none => .final
    else .threw

/-- One loop iteration's probing: the HEAD attempt, falling back to the
range-limited GET attempt when the HEAD attempt throws; `some next` is a
redirect hop, `none` ends the loop with `current` as final (including the
both-probes-failed case). The second component lists the URLs probed. -/
def hopStep (env : HttpEnv) (current : String) : Option String × List String :=
  match evalProbe (env.head current) current with
  | .redirect next => (some next, [current])
  | .final => (none, [current])
  | .threw =>
    match evalProbe (env.getRange current) current with
    | .redirect next => (some next, [current, current])
    | _ => (none, [current, current])

/-- The `while (redirectCount < MAX_REDIRECTS)` loop of `followRedirects`,
with state `(currentUrl, redirectCount, visitedUrls)`. `fuel` only bounds the
recursion; called with `MAX_REDIRECTS + 1` it never runs out before the loop
condition fails, since every continuing iteration increments
`redirectCount`. Returns the final `(currentUrl, redirectCount)` and the
probe log. -/
def redirectLoop (env : HttpEnv) :
    Nat → String → Nat → List String → (String × Nat) × List String
  | 0, current, count, _ => ((current, count), [])
  | fuel + 1, current, count, visited =>
    if count < MAX_REDIRECTS then
      if current ∈ visited then ((current, count), [])
      else
        match hopStep env current with
        | (some next, probes) =>
          let r := redirectLoop env fuel next (count + 1) (current :: visited)
          (r.1, probes ++ r.2)
        | (none, probes) => ((current, count), probes)
    else ((current, count), [])

/-- The `RedirectService.followRedirects`: redirect-cache lookup under
`'redirect:' + url`, on a miss run the hop loop from `(url, 0, ∅)` and write
the outcome back under the same key with the 24h TTL. Returns the outcome,
the updated cache state, and the probe log (empty on a hit). -/
def followRedirects (env : HttpEnv) (st : CacheState) (now : Nat) (url : String) :
    RedirectOutcome × CacheState × List String :=
  let cacheKey := REDIRECT_CACHE_NS ++ url
  match cacheGetRedirect st now cacheKey with
  | some cached => (cached, st, [])
  | none =>
    let r := redirectLoop env (MAX_REDIRECTS + 1) url 0 []
    let result : RedirectOutcome := ⟨r.1.1, r.1.2⟩
    (result, cacheSetRedirect st now cacheKey result REDIRECT_CACHE_TTL, r.2)

/-! ## Analysis Orchestrator (`analyze.service.ts`, redirect-integrated
version)

External collaborators are parameters: the `franc` detector output, the
`linkify-it` matcher (`null` or a list of `match.url` strings), the
phone/public-IP extractors (invoked behind well-defined input→output
contracts the spec places out of scope), and the `link-shorteners` domain
table loaded in the constructor. Wall-clock `processingTime` values are not
modelled (the claims explicitly exclude the always-overwritten
`processing_time_ms` field); the field is set to 0 wherever the source
stores an elapsed time. -/

/-- The collaborators of `AnalyzeService`, fixed for the process lifetime. -/
structure AnalyzeEnv where
  http : HttpEnv
  franc : String → List (String × Rat)
  linkifyMatch : String → Option (List String)
  phonesOf : String → List String
  publicIPsOf : String → List String
  shortenerDomains : List String

/-- The `ANALYSIS_CACHE_TTL`: the orchestrator's `CACHE_TTL` (60 seconds). -/
def ANALYSIS_CACHE_TTL : Nat := 60

/-- The protocol-defaulting step of `extractUrls`: prepend `http://` when the
match carries no protocol. -/
def ensureProtocol (u : String) : String :=
  if strStartsWith u "http://" ∨ strStartsWith u "https://" then u else "http://" ++ u

/-- The shortener test of `extractUrls`: exact hostname match or suffix match
after a dot against the shortener-domain table. -/
def isShortenerHost (domains : List String) (hostname : String) : Bool :=
  domains.any (fun s => hostname = s ∨ strEndsWith hostname ("." ++ s))

/-- The per-match loop of `extractUrls`, threading the cache state.
Accumulators: `finalUrls` (pushed in match order, deduplicated afterwards),
`shorteners` (the `Set` of shortener hostnames, insertion-ordered), and the
log of `followRedirects` invocations `(url, outcome)` in call order. An
unparsable URL is pushed unchanged (the `catch` branch). -/
def extractUrlsGo (env : AnalyzeEnv) (now : Nat) :
    List String → CacheState → List String → List String →
    List (String × RedirectOutcome) →
    (List String × List String) × CacheState × List (String × RedirectOutcome)
  | [], st, finalUrls, shorteners, log => ((finalUrls, shorteners), st, log)
  | m :: rest, st, finalUrls, shorteners, log =>
    let url := ensureProtocol m
    match parseUrl url with
    | none => extractUrlsGo env now rest st (finalUrls ++ [url]) shorteners log
    | some parts =>
      if isShortenerHost env.shortenerDomains parts.hostname then
        let shorteners' :=
          if parts.hostname ∈ shorteners then shorteners else shorteners ++ [parts.hostname]
        let r := followRedirects env.http st now url
        extractUrlsGo env now rest r.2.1 (finalUrls ++ [r.1.finalUrl]) shorteners'
          (log ++ [(url, r.1)])
      else
        extractUrlsGo env now rest st (finalUrls ++ [url]) shorteners log

/-- The `AnalyzeService.extractUrls`: linkify the content (`null` means no
matches), process each match, deduplicate the output URL list. Returns
`(urls, shorteners)`, the updated cache state and the redirect-engine
invocation log. -/
def extractUrls (env : AnalyzeEnv) (st : CacheState) (now : Nat) (content : String) :
    (List String × List String) × CacheState × List (String × RedirectOutcome) :=
  match env.linkifyMatch content with
  | none => (([], []), st, [])
  | some ms =>
    let r := extractUrlsGo env now ms st [] [] []
    ((dedupFirst r.1.1, r.1.2), r.2)

/-- The `buildEnhancedAnalysis`: fixed placeholder metrics plus the extracted
URL/phone/IP lists and the shorteners encountered. -/
def buildEnhancedAnalysis (env : AnalyzeEnv) (st : CacheState) (now : Nat) (content : String) :
    EnhancedAnalysisDto × CacheState :=
  let u := extractUrls env st now content
  (⟨0, 0, 0, 0, 0, 0, 0, 0, 0, "", [], u.1.1, env.phonesOf content, env.publicIPsOf content,
    u.1.2⟩, u.2.1)

/-- The `buildAnalysis`: assemble the `AnalysisDto` from the detection result and
the enhanced analysis (the elapsed-time argument is not modelled). -/
def buildAnalysis (env : AnalyzeEnv) (st : CacheState) (now : Nat)
    (languageResult : LanguageDetectionResult) (cached : Bool) (content : String) :
    AnalysisDto × CacheState :=
  let e := buildEnhancedAnalysis env st now content
  (⟨languageResult.language, languageResult.confidence, cached, 0, 0, [], e.1⟩, e.2)

/-- The `buildResponse`: overwrite `cached` and `processing_time_ms` on the
analysis object and wrap it in the fixed response shell. -/
def buildResponse (analysis : AnalysisDto) (cached : Bool) (processingTime : Nat) :
    AnalyzeResponseDto :=
  ⟨"safe", 0, "no analysis", false,
    { analysis with cached := cached, processing_time_ms := processingTime }⟩

/-- The `AnalyzeService.analyze`: cache-aside on `request.content` — on a hit
return the stored analysis re-flagged `cached := true`; on a miss run
language detection and the extractors, cache the assembled analysis for 60
seconds, and return it flagged `cached := false`. -/
def analyze (env : AnalyzeEnv) (st : CacheState) (now : Nat) (content : String) :
    AnalyzeResponseDto × CacheState :=
  match cacheGetAnalysis st now content with
  | some cachedResult => (buildResponse cachedResult true 0, st)
  | none =>
    let languageResult := detect content (env.franc content)
    let a := buildAnalysis env st now languageResult false content
    let st2 := cacheSetAnalysis a.2 now content a.1 ANALYSIS_CACHE_TTL
    (buildResponse a.1 false 0, st2)

/-- A Sentinel-eligible configuration outside production: non-empty discovery
host list and a named logical master, but `nodeEnv = 'development'`. -/
def devSentinelCfg : RedisConfig :=
  ⟨"development", "localhost", 6379, ["sentinel-1:26379", "sentinel-2:26379"], "mymaster", false⟩

/-- A word consisting only of ASCII letters `a`–`z`. -/
def isAsciiLowerWord (w : String) : Bool := w.toList.all (fun c => 'a' ≤ c ∧ c ≤ 'z')

/-- Every outcome stored in the redirect cache region respects the hop
bound. -/
def RedirectStoreBounded (st : CacheState) : Prop :=
  ∀ e ∈ st.redirectStore, e.2.1.redirectCount ≤ MAX_REDIRECTS

/-- An unconditionally redirecting transport for witnesses: every HEAD probe
answers `301 Location: http://a<current>`, so every hop's target is fresh
(strictly longer). -/
def chainF : String → String := fun u => "http://a" ++ u

/-- The probe environment realising `chainF`. -/
def chainEnv : HttpEnv := ⟨fun u => .resp 301 (some (chainF u)), fun _ => .err⟩

/-- A connected, failure-free cache client over an empty keyspace. -/
def emptyCache : CacheState := ⟨true, false, false, false, false, "PONG", [], []⟩

/-- A concrete two-node cycle `http://a ↔ http://b` for the C8 witness. -/
def cycleEnv : HttpEnv :=
  ⟨fun u =>
      if u = "http://a" then .resp 301 (some "http://b")
      else if u = "http://b" then .resp 301 (some "http://a")
      else .err,
    fun _ => .err⟩

/-- Boundary content: 100 tokens of which exactly 31 are the French common
word `le` (lexical ratio 31/100 = 0.31 for `fra`, 0 for `eng`). -/
def content31 : String :=
  String.intercalate " " (List.replicate 31 "le" ++ List.replicate 69 "qq")

/-- Boundary content: 100 tokens of which exactly 30 are `le` (ratio exactly
0.30 for `fra`). -/
def content30 : String :=
  String.intercalate " " (List.replicate 30 "le" ++ List.replicate 70 "qq")

/-- A minimal collaborator environment: no detector candidates, no linkify
matches, no extractor output, empty shortener table, failing transport. -/
def trivialEnv : AnalyzeEnv :=
  ⟨⟨fun _ => .err, fun _ => .err⟩, fun _ => [], fun _ => none, fun _ => [], fun _ => [], []⟩

/-- A concrete environment for the C6 witness: one `bit.ly` match carrying
an explicit port (so the hostname, not the full authority, must drive the
shortener check) that resolves to `http://target.example/`; shortener table
`["bit.ly"]`. -/
def c6Env : AnalyzeEnv :=
  ⟨⟨fun u => if u = "http://bit.ly:8080/x" then .resp 301 (some "http://target.example/")
      else .resp 200 none, fun _ => .err⟩,
    fun _ => [], fun _ => some ["http://bit.ly:8080/x"], fun _ => [], fun _ => [], ["bit.ly"]⟩

/-! ## Theorems -/

theorem mem_dedupFirst : ∀ (l : List String) (a : String), a ∈ dedupFirst l ↔ a ∈ l := by
  intro l
  induction l using dedupFirst.induct with
  | case1 => simp [dedupFirst]
  | case2 x xs ih =>
    intro a
    by_cases hax : a = x
    · subst hax; simp [dedupFirst]
    · simp only [dedupFirst, List.mem_cons, ih, List.mem_filter]
      constructor
      · rintro (h | ⟨h, _⟩)
        · exact Or.inl h
        · exact Or.inr h
      · rintro (h | h)
        · exact Or.inl h
        · exact Or.inr ⟨h, by simpa using hax⟩

theorem dedupFirst_nodup : ∀ l : List String, (dedupFirst l).Nodup := by
  intro l
  induction l using dedupFirst.induct with
  | case1 => simp [dedupFirst]
  | case2 x xs ih =>
    simp only [dedupFirst, List.nodup_cons]
    refine ⟨fun hx => ?_, ih⟩
    have hx' := (mem_dedupFirst _ _).mp hx
    have := List.of_mem_filter hx'
    simp at this

/-! ## Claim theorems -/

/-- C3: the four cache-client operations are total — their bodies `catch`
every transport error (`redisGet…`/`redisSetex…`/`redisDel`/`redisPing`
rejections), and while the client is not connected they fail fast locally:
`get` returns absent, `set`/`delete` leave the store untouched, `isHealthy`
is `false`, with no queuing of the request. -/
theorem cache_ops_total_and_fail_fast (st : CacheState) (now ttl : Nat)
    (content keyStr : String) (v : AnalysisDto) (r : RedirectOutcome) :
    (st.isConnected = false →
      cacheGetAnalysis st now content = none ∧
      cacheGetRedirect st now keyStr = none ∧
      cacheSetAnalysis st now content v ttl = st ∧
      cacheSetRedirect st now keyStr r ttl = st ∧
      cacheDelete st content = st ∧
      isHealthy st = false) ∧
    (st.failGet = true →
      cacheGetAnalysis st now content = none ∧ cacheGetRedirect st now keyStr = none) ∧
    (st.failSet = true →
      cacheSetAnalysis st now content v ttl = st ∧ cacheSetRedirect st now keyStr r ttl = st) ∧
    (st.failDel = true → cacheDelete st content = st) ∧
    (st.failPing = true → isHealthy st = false) := by
  refine ⟨fun h => ?_, fun h => ?_, fun h => ?_, fun h => ?_, fun h => ?_⟩
  · simp [cacheGetAnalysis, cacheGetRedirect, cacheSetAnalysis, cacheSetRedirect,
      cacheDelete, isHealthy, h]
  · simp [cacheGetAnalysis, cacheGetRedirect, redisGetAnalysis, redisGetRedirect, h]
  · constructor
    · by_cases hc : st.isConnected <;>
        simp [cacheSetAnalysis, redisSetexAnalysis, h, hc]
    · by_cases hc : st.isConnected <;>
        simp [cacheSetRedirect, redisSetexRedirect, h, hc]
  · by_cases hc : st.isConnected <;> simp [cacheDelete, redisDel, h, hc]
  · by_cases hc : st.isConnected <;> simp [isHealthy, redisPing, h, hc]

/-- Witness for C3 at a concrete disconnected/failing state. -/
theorem cache_ops_total_and_fail_fast_witness :
    cacheGetAnalysis ⟨false, false, false, false, false, "PONG", [], []⟩ 0 "hello" = none ∧
    isHealthy ⟨true, false, false, false, true, "PONG", [], []⟩ = false :=
  ⟨((cache_ops_total_and_fail_fast ⟨false, false, false, false, false, "PONG", [], []⟩ 0 0
      "hello" "k" ⟨"eng", 0, false, 0, 0, [], ⟨0,0,0,0,0,0,0,0,0,"",[],[],[],[],[]⟩⟩
      ⟨"", 0⟩).1 rfl).1,
   ((cache_ops_total_and_fail_fast ⟨true, false, false, false, true, "PONG", [], []⟩ 0 0
      "hello" "k" ⟨"eng", 0, false, 0, 0, [], ⟨0,0,0,0,0,0,0,0,0,"",[],[],[],[],[]⟩⟩
      ⟨"", 0⟩).2.2.2.2 rfl)⟩

/-- C9 counterexample: with discovery hosts and a master name configured but
`nodeEnv ≠ 'production'`, `initializeRedis` builds the direct topology, so
the topology choice does not depend only on the discovery configuration. -/
theorem topology_not_config_only_counterexample :
    devSentinelCfg.sentinelHosts ≠ [] ∧
    devSentinelCfg.masterName = "mymaster" ∧
    (initializeRedis devSentinelCfg).isSentinel = false := by
  refine ⟨by decide, rfl, ?_⟩
  have h : ¬(devSentinelCfg.nodeEnv = "production" ∧ devSentinelCfg.sentinelHosts ≠ []) := by
    intro h
    exact absurd h.1 (by decide)
  simp [initializeRedis, h, RedisTopology.isSentinel]

/-- C9 (amended): the Sentinel topology is selected exactly when
`nodeEnv = 'production'` and the discovery-host list is non-empty (the master
name plays no part in the condition); whenever no discovery hosts are
configured the direct single-endpoint topology is selected. The choice
depends only on `nodeEnv` and the discovery-host list. -/
theorem topology_selection (cfg : RedisConfig) :
    ((initializeRedis cfg).isSentinel = true ↔
      (cfg.nodeEnv = "production" ∧ cfg.sentinelHosts ≠ [])) ∧
    (cfg.sentinelHosts = [] → initializeRedis cfg = .direct cfg.host cfg.port) := by
  constructor
  · by_cases h : cfg.nodeEnv = "production" ∧ cfg.sentinelHosts ≠ [] <;>
      simp [initializeRedis, h, RedisTopology.isSentinel]
  · intro h
    have h' : ¬(cfg.nodeEnv = "production" ∧ cfg.sentinelHosts ≠ []) := by
      intro hc
      exact hc.2 h
    simp [initializeRedis, h']

/-- Witness for C9's amended theorem: in production with discovery hosts the
Sentinel topology is selected; with no discovery hosts the direct topology
is. -/
theorem topology_selection_witness :
    (initializeRedis ⟨"production", "localhost", 6379, ["s1:26379"], "mymaster", true⟩).isSentinel
        = true ∧
    initializeRedis ⟨"development", "localhost", 6379, [], "mymaster", false⟩ =
        .direct "localhost" 6379 :=
  ⟨(topology_selection ⟨"production", "localhost", 6379, ["s1:26379"], "mymaster", true⟩).1.mpr
      ⟨rfl, by decide⟩,
   (topology_selection ⟨"development", "localhost", 6379, [], "mymaster", false⟩).2 rfl⟩

/-- Every character of every fragment produced by `splitWordsAux` comes from
the non-whitespace characters of the input (or the pending fragment). -/
theorem splitWordsAux_chars (P : Char → Prop) :
    ∀ (cs acc : List Char), (∀ c ∈ cs, P c ∨ isJsSpace c = true) → (∀ c ∈ acc, P c) →
      ∀ w ∈ splitWordsAux cs acc, ∀ c ∈ w.toList, P c := by
  intro cs
  induction cs with
  | nil =>
    intro acc _ hacc w hw c hc
    simp only [splitWordsAux] at hw
    by_cases he : acc.isEmpty
    · rw [if_pos he] at hw
      simp at hw
    · rw [if_neg he] at hw
      rw [List.mem_singleton] at hw
      subst hw
      exact hacc c (by simpa using hc)
  | cons x cs ih =>
    intro acc hcs hacc w hw c hc
    simp only [splitWordsAux] at hw
    by_cases hx : isJsSpace x
    · rw [if_pos hx] at hw
      by_cases he : acc.isEmpty
      · rw [if_pos he] at hw
        exact ih [] (fun c hc => hcs c (List.mem_cons_of_mem _ hc)) (by simp) w hw c hc
      · rw [if_neg he] at hw
        rcases List.mem_cons.mp hw with hw | hw
        · subst hw
          exact hacc c (by simpa using hc)
        · exact ih [] (fun c hc => hcs c (List.mem_cons_of_mem _ hc)) (by simp) w hw c hc
    · rw [if_neg hx] at hw
      have hxP : P x := by
        rcases hcs x (List.mem_cons_self _ _) with h | h
        · exact h
        · exact absurd h (by simpa using hx)
      refine ih (x :: acc) (fun c hc => hcs c (List.mem_cons_of_mem _ hc)) ?_ w hw c hc
      intro c hc
      rcases List.mem_cons.mp hc with h | h
      · subst h; exact hxP
      · exact hacc c h

/-- Every token of the word pipeline has length at least 2 and consists only
of ASCII letters `a`–`z`. -/
theorem extractWordTokens_chars (content : String) :
    ∀ w ∈ extractWordTokens content, 2 ≤ w.length ∧ ∀ c ∈ w.toList, 'a' ≤ c ∧ c ≤ 'z' := by
  intro w hw
  unfold extractWordTokens at hw
  have hw' := List.mem_filter.mp hw
  constructor
  · have := hw'.2
    simp only [decide_eq_true_eq] at this
    omega
  · refine splitWordsAux_chars (fun c => 'a' ≤ c ∧ c ≤ 'z') _ [] ?_ (by simp) w hw'.1
    intro c hc
    rcases List.mem_map.mp hc with ⟨c₀, _, hmap⟩
    by_cases hcond : ('a' ≤ c₀ ∧ c₀ ≤ 'z') ∨ isJsSpace c₀ = true
    · simp only [hcond, if_true] at hmap
      subst hmap
      exact hcond
    · simp only [hcond, if_false] at hmap
      subst hmap
      right
      decide

/-- C10: every token counted by the lexical word-ratio computation (numerator
and denominator alike) is a string of length ≥ 2 over the ASCII alphabet
`a`–`z` — the content is lowercased, NFD-decomposed with combining marks
stripped, and every remaining non-`[a-z]` character is blanked before
splitting — so a dictionary entry containing any character outside `a`–`z`
(`être`, `się`, `können`, `más`, …) can never equal a token: filtering such
entries out of any dictionary leaves every language's match ratio
unchanged. -/
theorem lexical_tokens_ascii_invariant (content : String) :
    (∀ w ∈ extractWordTokens content, 2 ≤ w.length ∧ ∀ c ∈ w.toList, 'a' ≤ c ∧ c ≤ 'z') ∧
    (∀ dict : List String,
      wordRatioAgainst content dict = wordRatioAgainst content (dict.filter isAsciiLowerWord)) ∧
    (∀ language : String, calculateLanguageWordRatioQ content language =
      (match COMMON_WORDS.find? (fun p => p.1 = language) with
       | none => (0 : Rat)
       | some p => wordRatioAgainst content (p.2.filter isAsciiLowerWord))) := by
  have hfilter : ∀ dict : List String,
      wordRatioAgainst content dict = wordRatioAgainst content (dict.filter isAsciiLowerWord) := by
    intro dict
    unfold wordRatioAgainst
    have hcong : (extractWordTokens content).filter (fun w => dict.contains w) =
        (extractWordTokens content).filter (fun w => (dict.filter isAsciiLowerWord).contains w) := by
      apply List.filter_congr
      intro w hw
      have hword : isAsciiLowerWord w = true := by
        unfold isAsciiLowerWord
        rw [List.all_eq_true]
        intro c hc
        exact decide_eq_true ((extractWordTokens_chars content w hw).2 c hc)
      have hiff : w ∈ dict ↔ w ∈ dict.filter isAsciiLowerWord := by
        rw [List.mem_filter]
        exact ⟨fun h => ⟨h, hword⟩, fun h => h.1⟩
      by_cases hmem : w ∈ dict
      · rw [show dict.contains w = true from List.elem_iff.mpr hmem,
          show (dict.filter isAsciiLowerWord).contains w = true from
            List.elem_iff.mpr (hiff.mp hmem)]
      · rw [show dict.contains w = false from
            Bool.eq_false_iff.mpr (fun h => hmem (List.elem_iff.mp h)),
          show (dict.filter isAsciiLowerWord).contains w = false from
            Bool.eq_false_iff.mpr (fun h => hmem (hiff.mpr (List.elem_iff.mp h)))]
    simp only [hcong]
  refine ⟨extractWordTokens_chars content, hfilter, ?_⟩
  intro language
  unfold calculateLanguageWordRatioQ
  cases h : COMMON_WORDS.find? (fun p => p.1 = language) with
  | none => simp
  | some p => simpa using hfilter p.2

/-- Witness for C10: a concrete content and dictionary — the token `le` is
alphabetic of length 2, and dropping the non-ASCII entry `être` from a
dictionary does not change the ratio. -/
theorem lexical_tokens_ascii_invariant_witness :
    (2 ≤ "le".length ∧ ∀ c ∈ "le".toList, 'a' ≤ c ∧ c ≤ 'z') ∧
    wordRatioAgainst "le être qq" ["être", "le"] =
      wordRatioAgainst "le être qq" (["être", "le"].filter isAsciiLowerWord) :=
  ⟨(lexical_tokens_ascii_invariant "le être qq").1 "le" (by decide),
   (lexical_tokens_ascii_invariant "le être qq").2.1 ["être", "le"]⟩

/-! ### Redirect-engine lemmas -/

theorem strStartsWith_length {s p : String} (h : strStartsWith s p = true) :
    p.length ≤ s.length := by
  unfold strStartsWith at h
  have hpre := List.isPrefixOf_iff_prefix.mp h
  exact hpre.length_le

theorem ne_empty_of_startsWith_http {l : String} (h : strStartsWith l "http://" = true) :
    l ≠ "" := by
  intro he
  subst he
  exact absurd (strStartsWith_length h) (by decide)

theorem storeLookup_some_mem {α : Type} {store : StoreOf α} {now : Nat} {key : String} {v : α}
    (h : storeLookup store now key = some v) : ∃ e ∈ store, e.2.1 = v := by
  unfold storeLookup at h
  cases hf : store.find? (fun e => e.1 = key) with
  | none => rw [hf] at h; exact absurd h (by simp)
  | some e =>
    rw [hf] at h
    dsimp only at h
    by_cases ht : now < e.2.2
    · rw [if_pos ht] at h
      exact ⟨e, List.mem_of_find?_eq_some hf, by injection h⟩
    · rw [if_neg ht] at h
      exact absurd h (by simp)

theorem cacheGetRedirect_some_mem {st : CacheState} {now : Nat} {keyStr : String}
    {v : RedirectOutcome} (h : cacheGetRedirect st now keyStr = some v) :
    ∃ e ∈ st.redirectStore, e.2.1 = v := by
  unfold cacheGetRedirect at h
  by_cases hc : st.isConnected
  · rw [if_neg (by simp [hc])] at h
    unfold redisGetRedirect at h
    by_cases hg : st.failGet
    · rw [if_pos hg] at h
      exact absurd h (by simp)
    · rw [if_neg hg] at h
      exact storeLookup_some_mem h
  · rw [if_pos (by simp [hc])] at h
    exact absurd h (by simp)

theorem redirectLoop_count_le (env : HttpEnv) :
    ∀ (fuel : Nat) (current : String) (count : Nat) (visited : List String),
      count ≤ MAX_REDIRECTS →
      (redirectLoop env fuel current count visited).1.2 ≤ MAX_REDIRECTS := by
  intro fuel
  induction fuel with
  | zero => intro current count visited h; simpa [redirectLoop] using h
  | succ fuel ih =>
    intro current count visited h
    unfold redirectLoop
    by_cases hlt : count < MAX_REDIRECTS
    · rw [if_pos hlt]
      by_cases hmem : current ∈ visited
      · rw [if_pos hmem]; exact h
      · rw [if_neg hmem]
        cases hs : hopStep env current with
        | mk o probes =>
          cases o with
          | some next => simpa using ih next (count + 1) (current :: visited) hlt
          | none => simpa using h
    · rw [if_neg hlt]; exact h

/-- The `followRedirects` keeps every cache-state field other than the redirect
store unchanged, and never touches the analysis store. -/
theorem followRedirects_preserves (env : HttpEnv) (st : CacheState) (now : Nat) (url : String) :
    ((followRedirects env st now url).2.1.isConnected = st.isConnected ∧
     (followRedirects env st now url).2.1.failGet = st.failGet ∧
     (followRedirects env st now url).2.1.failSet = st.failSet ∧
     (followRedirects env st now url).2.1.failDel = st.failDel ∧
     (followRedirects env st now url).2.1.failPing = st.failPing ∧
     (followRedirects env st now url).2.1.pingReply = st.pingReply) ∧
    (followRedirects env st now url).2.1.analysisStore = st.analysisStore := by
  cases hc : cacheGetRedirect st now (REDIRECT_CACHE_NS ++ url) with
  | some cached => simp [followRedirects, hc]
  | none =>
    simp only [followRedirects, hc]
    unfold cacheSetRedirect redisSetexRedirect
    by_cases h1 : st.isConnected
    · by_cases h2 : st.failSet <;> simp [h1, h2]
    · simp [h1]

/-- A disconnected cache client makes `followRedirects` leave the cache state
untouched. -/
theorem followRedirects_disconnected (env : HttpEnv) (st : CacheState) (now : Nat)
    (url : String) (h : st.isConnected = false) :
    (followRedirects env st now url).2.1 = st := by
  cases hc : cacheGetRedirect st now (REDIRECT_CACHE_NS ++ url) with
  | some cached => simp [followRedirects, hc]
  | none =>
    simp only [followRedirects, hc]
    unfold cacheSetRedirect
    rw [if_pos (by simp [h])]

/-- A `3xx` probe response with an absolute, non-empty `location` resolves to
a redirect hop to that location. -/
theorem evalProbe_301_absolute (current l : String) (hl : strStartsWith l "http://" = true) :
    evalProbe (.resp 301 (some l)) current = .redirect l := by
  have hne : l ≠ "" := ne_empty_of_startsWith_http hl
  unfold evalProbe locTruthy resolveLocation
  dsimp only
  rw [if_pos (by decide : (200:Nat) ≤ 301 ∧ (301:Nat) < 400), if_neg hne]
  dsimp only
  rw [if_pos (by decide : (300:Nat) ≤ 301 ∧ (301:Nat) < 400), if_pos (Or.inl hl)]

/-- Under an unconditionally redirecting probe chain (every probe answers
`301` with an absolute, strictly longer fresh location), the hop loop runs
its remaining budget down to exactly `MAX_REDIRECTS` and ends on the
`n`-th iterate of the location map. -/
theorem redirectLoop_chain (env : HttpEnv) (f : String → String)
    (hchain : ∀ u, env.head u = .resp 301 (some (f u)))
    (habs : ∀ u, strStartsWith (f u) "http://" = true)
    (hlen : ∀ u, u.length < (f u).length) :
    ∀ (n : Nat) (current : String) (count : Nat) (visited : List String),
      count + n = MAX_REDIRECTS →
      (∀ v ∈ visited, v.length < current.length) →
      (redirectLoop env (n + 1) current count visited).1 = (f^[n] current, MAX_REDIRECTS) := by
  intro n
  induction n with
  | zero =>
    intro current count visited hcount _
    have hne : ¬ count < MAX_REDIRECTS := by omega
    have hceq : count = MAX_REDIRECTS := by omega
    subst hceq
    unfold redirectLoop
    rw [if_neg hne]
    simp
  | succ n ih =>
    intro current count visited hcount hvis
    have hlt : count < MAX_REDIRECTS := by omega
    have hmem : current ∉ visited := fun hm => absurd (hvis current hm) (by omega)
    have hhop : hopStep env current = (some (f current), [current]) := by
      unfold hopStep
      rw [hchain current, evalProbe_301_absolute current (f current) (habs current)]
    show (redirectLoop env (n + 1 + 1) current count visited).1 = _
    unfold redirectLoop
    rw [if_pos hlt, if_neg hmem, hhop]
    have hvis' : ∀ v ∈ current :: visited, v.length < (f current).length := by
      intro v hv
      rcases List.mem_cons.mp hv with h | h
      · subst h; exact hlen v
      · exact lt_trans (hvis v h) (hlen current)
    have := ih (f current) (count + 1) (current :: visited) (by omega) hvis'
    simpa [Function.iterate_succ_apply] using this

/-- C1: every `RedirectOutcome` produced by `followRedirects` satisfies
`redirectCount ≤ MAX_REDIRECTS` (10) — on a hit because only bounded
outcomes are in the cache region, on a miss because the loop guard stops at
the bound, and the written-back outcome preserves the cache invariant — and
for a URL whose probe chain redirects unconditionally at every hop (each
probe a `3xx` with an absolute location header that is fresh, never
visited — freshness by strictly growing length), the engine terminates with
`redirectCount = 10` and `finalUrl` equal to the URL reached at the 10th
hop, which is non-empty. -/
theorem redirect_bound_and_unconditional_chain (env : HttpEnv) (st : CacheState) (now : Nat)
    (url : String) (f : String → String)
    (hmiss : cacheGetRedirect st now (REDIRECT_CACHE_NS ++ url) = none)
    (hchain : ∀ u, env.head u = .resp 301 (some (f u)))
    (habs : ∀ u, strStartsWith (f u) "http://" = true)
    (hlen : ∀ u, u.length < (f u).length) :
    (∀ (env' : HttpEnv) (st' : CacheState) (now' : Nat) (url' : String),
      RedirectStoreBounded st' →
        (followRedirects env' st' now' url').1.redirectCount ≤ MAX_REDIRECTS ∧
        RedirectStoreBounded (followRedirects env' st' now' url').2.1) ∧
    (followRedirects env st now url).1.redirectCount = MAX_REDIRECTS ∧
    (followRedirects env st now url).1.finalUrl = f^[MAX_REDIRECTS] url ∧
    (followRedirects env st now url).1.finalUrl ≠ "" := by
  constructor
  · intro env' st' now' url' hb
    cases hc : cacheGetRedirect st' now' (REDIRECT_CACHE_NS ++ url') with
    | some cached =>
      obtain ⟨e, hmem, hev⟩ := cacheGetRedirect_some_mem hc
      refine ⟨?_, ?_⟩
      · simp only [followRedirects, hc]
        exact hev ▸ hb e hmem
      · simp only [followRedirects, hc]
        exact hb
    | none =>
      have hcount := redirectLoop_count_le env' (MAX_REDIRECTS + 1) url' 0 [] (by omega)
      refine ⟨?_, ?_⟩
      · simp only [followRedirects, hc]
        exact hcount
      · simp only [followRedirects, hc]
        unfold cacheSetRedirect redisSetexRedirect
        by_cases h1 : st'.isConnected
        · by_cases h2 : st'.failSet
          · simp only [h1, h2]
            simpa using hb
          · simp only [h1, h2]
            intro e he
            simp only [Bool.not_true, reduceIte, storeInsert] at he ⊢
            rcases List.mem_cons.mp he with h | h
            · subst h; exact hcount
            · exact hb e (List.mem_of_mem_filter h)
        · simp only [h1]
          simpa using hb
  · have hloop := redirectLoop_chain env f hchain habs hlen MAX_REDIRECTS url 0 [] (by omega)
      (by simp)
    have h10 : f^[MAX_REDIRECTS] url = f (f^[9] url) := by
      show f^[10] url = f (f^[9] url)
      rw [show (10 : Nat) = 9 + 1 from rfl, Function.iterate_succ_apply']
    refine ⟨?_, ?_, ?_⟩
    · simp only [followRedirects, hmiss]
      rw [hloop]
    · simp only [followRedirects, hmiss]
      rw [hloop]
    · simp only [followRedirects, hmiss]
      rw [hloop]
      simp only [h10]
      exact ne_empty_of_startsWith_http (habs _)

/-- One continuing iteration of the hop loop. -/
theorem redirectLoop_step (env : HttpEnv) (fuel : Nat) (current : String) (count : Nat)
    (visited : List String) (next : String) (probes : List String)
    (h1 : count < MAX_REDIRECTS) (h2 : current ∉ visited)
    (h3 : hopStep env current = (some next, probes)) :
    (redirectLoop env (fuel + 1) current count visited).1 =
      (redirectLoop env fuel next (count + 1) (current :: visited)).1 := by
  conv_lhs => rw [redirectLoop]
  rw [if_pos h1, if_neg h2, h3]

/-- The loop stops as soon as the current URL has been visited. -/
theorem redirectLoop_visited (env : HttpEnv) (fuel : Nat) (current : String) (count : Nat)
    (visited : List String) (h1 : count < MAX_REDIRECTS) (h2 : current ∈ visited) :
    redirectLoop env (fuel + 1) current count visited = ((current, count), []) := by
  unfold redirectLoop
  rw [if_pos h1, if_pos h2]

/-- C8: for a two-node redirect cycle (probing `A` answers a redirect to `B`
and probing `B` a redirect back to `A`), `followRedirects` terminates with
`redirectCount = 2 < 10`: the third iteration finds `A` in the visited set
and stops before taking another hop, leaving `finalUrl` at the latest
reached URL `A`. -/
theorem two_node_cycle_terminates_early (env : HttpEnv) (st : CacheState) (now : Nat)
    (A B : String) (hAB : A ≠ B)
    (hA : env.head A = .resp 301 (some B))
    (hB : env.head B = .resp 301 (some A))
    (habsA : strStartsWith A "http://" = true)
    (habsB : strStartsWith B "http://" = true)
    (hmiss : cacheGetRedirect st now (REDIRECT_CACHE_NS ++ A) = none) :
    (followRedirects env st now A).1 = ⟨A, 2⟩ ∧
    (followRedirects env st now A).1.redirectCount < MAX_REDIRECTS := by
  have s1 : hopStep env A = (some B, [A]) := by
    unfold hopStep
    rw [hA, evalProbe_301_absolute A B habsB]
  have s2 : hopStep env B = (some A, [B]) := by
    unfold hopStep
    rw [hB, evalProbe_301_absolute B A habsA]
  have hBA : B ∉ ([A] : List String) := by
    intro h
    exact hAB ((List.mem_singleton.mp h).symm)
  have hloop : (redirectLoop env (MAX_REDIRECTS + 1) A 0 []).1 = (A, 2) := by
    calc (redirectLoop env (MAX_REDIRECTS + 1) A 0 []).1
        = (redirectLoop env 10 B 1 [A]).1 :=
          redirectLoop_step env 10 A 0 [] B [A] (by decide) (by simp) s1
      _ = (redirectLoop env 9 A 2 [B, A]).1 :=
          redirectLoop_step env 9 B 1 [A] A [B] (by decide) hBA s2
      _ = (A, 2) := by
          rw [redirectLoop_visited env 8 A 2 [B, A] (by decide) (by simp)]
  constructor
  · simp only [followRedirects, hmiss]
    rw [hloop]
  · simp only [followRedirects, hmiss]
    rw [hloop]
    exact (by decide : (2 : Nat) < MAX_REDIRECTS)

theorem chainF_startsWith (u : String) : strStartsWith (chainF u) "http://" = true := by
  unfold chainF strStartsWith
  apply List.isPrefixOf_iff_prefix.mpr
  have h1 : "http://".toList <+: "http://a".toList :=
    List.isPrefixOf_iff_prefix.mp (by decide)
  have h2 : "http://a".toList <+: ("http://a" ++ u).toList := by
    show "http://a".data <+: ("http://a" ++ u).data
    rw [String.data_append]
    exact List.prefix_append _ _
  exact h1.trans h2

theorem chainF_longer (u : String) : u.length < (chainF u).length := by
  unfold chainF
  rw [String.length_append]
  have : "http://a".length = 8 := by decide
  omega

/-- Witness for C1: the concrete unconditional chain reaches exactly the hop
bound with a non-empty final URL. -/
theorem redirect_bound_and_unconditional_chain_witness :
    (followRedirects chainEnv emptyCache 0 "http://u").1.redirectCount = MAX_REDIRECTS ∧
    (followRedirects chainEnv emptyCache 0 "http://u").1.finalUrl ≠ "" := by
  have h := redirect_bound_and_unconditional_chain chainEnv emptyCache 0 "http://u" chainF
    (by decide) (fun u => rfl) chainF_startsWith chainF_longer
  exact ⟨h.2.1, h.2.2.2⟩

/-- C4: on a redirect-cache miss, `followRedirects` writes the freshly
computed outcome back under the same namespaced key (`'redirect:' + url`)
with the 24-hour TTL before returning — for every probe environment, hence
on every completion path (probe failures, loop detection, hop-limit
exhaustion included) — and on a hit it returns the cached outcome
immediately, with the cache state untouched and no network probe issued. -/
theorem redirect_cache_writeback_and_hit (env : HttpEnv) (st : CacheState) (now : Nat)
    (url : String) (hconn : st.isConnected = true) (hfs : st.failSet = false) :
    (cacheGetRedirect st now (REDIRECT_CACHE_NS ++ url) = none →
      (followRedirects env st now url).2.1.redirectStore =
        storeInsert st.redirectStore (generateHash (REDIRECT_CACHE_NS ++ url))
          (followRedirects env st now url).1 (now + REDIRECT_CACHE_TTL)) ∧
    (∀ r₀, cacheGetRedirect st now (REDIRECT_CACHE_NS ++ url) = some r₀ →
      followRedirects env st now url = (r₀, st, [])) := by
  constructor
  · intro hmiss
    simp only [followRedirects, hmiss]
    unfold cacheSetRedirect redisSetexRedirect
    rw [if_neg (by simp [hconn]), if_neg (by simp [hfs])]
  · intro r₀ hhit
    simp only [followRedirects, hhit]

/-- Witness for C4 at a concrete miss (the unconditional chain environment)
and a concrete hit. -/
theorem redirect_cache_writeback_and_hit_witness :
    (followRedirects chainEnv emptyCache 0 "http://u").2.1.redirectStore =
      storeInsert emptyCache.redirectStore (generateHash (REDIRECT_CACHE_NS ++ "http://u"))
        (followRedirects chainEnv emptyCache 0 "http://u").1 (0 + REDIRECT_CACHE_TTL) :=
  (redirect_cache_writeback_and_hit chainEnv emptyCache 0 "http://u" rfl rfl).1 (by decide)

/-- Witness for C8: the concrete cycle stops at `redirectCount = 2` with
`finalUrl = http://a`. -/
theorem two_node_cycle_terminates_early_witness :
    (followRedirects cycleEnv emptyCache 0 "http://a").1 = ⟨"http://a", 2⟩ ∧
    (followRedirects cycleEnv emptyCache 0 "http://a").1.redirectCount < MAX_REDIRECTS :=
  two_node_cycle_terminates_early cycleEnv emptyCache 0 "http://a" "http://b"
    (by decide) (by decide) (by decide) (by decide) (by decide) (by decide)

/-! ### Language-override lemmas (C2) -/

/-- The candidate loop of `findBestLanguageByWords` yields a match exactly
when the accumulator already holds one or some supported candidate clears
the `> 0.3` ratio threshold. -/
theorem foldl_consider_isSome (content : String) :
    ∀ (results : List (String × Rat)) (acc : Option BestMatch),
      (results.foldl (considerCandidate content) acc).isSome = true ↔
        (acc.isSome = true ∨ ∃ p ∈ results, p.1 ∈ SUPPORTED_LANGUAGES ∧
          calculateLanguageWordRatioQ content p.1 > 3 / 10) := by
  intro results
  induction results with
  | nil => intro acc; simp
  | cons p rest ih =>
    intro acc
    rw [List.foldl_cons, ih]
    have hstep : (considerCandidate content acc p).isSome = true ↔
        (acc.isSome = true ∨
          (p.1 ∈ SUPPORTED_LANGUAGES ∧ calculateLanguageWordRatioQ content p.1 > 3 / 10)) := by
      unfold considerCandidate
      by_cases hs : p.1 ∈ SUPPORTED_LANGUAGES
      · rw [if_pos hs]
        dsimp only
        by_cases hr : calculateLanguageWordRatioQ content p.1 > 3 / 10
        · rw [if_pos hr]
          cases acc with
          | none => simp [hs, hr]
          | some b =>
            by_cases hw : calculateLanguageWordRatioQ content p.1 > b.wordRatioQ <;>
              simp [hw, hs, hr]
        · rw [if_neg hr]
          simp [hr]
      · rw [if_neg hs]
        simp [hs]
    rw [hstep, List.exists_mem_cons_iff]
    tauto

/-- Any match produced by the candidate loop carries, for some candidate in
the list, that candidate's language, its own rescaled detector score as
`confidence`, and its word ratio (which cleared the threshold). -/
theorem foldl_consider_some (content : String) :
    ∀ (results : List (String × Rat)) (acc : Option BestMatch) (b : BestMatch),
      results.foldl (considerCandidate content) acc = some b →
        acc = some b ∨ ∃ p ∈ results, p.1 = b.language ∧ p.1 ∈ SUPPORTED_LANGUAGES ∧
          b.confidence = clamp0100 (jsRound (p.2 * 100)) ∧
          b.wordRatioQ = calculateLanguageWordRatioQ content p.1 ∧ b.wordRatioQ > 3 / 10 := by
  intro results
  induction results with
  | nil =>
    intro acc b h
    rw [List.foldl_nil] at h
    exact Or.inl h
  | cons p rest ih =>
    intro acc b h
    rw [List.foldl_cons] at h
    rcases ih _ b h with hacc | ⟨q, hq, hprop⟩
    · unfold considerCandidate at hacc
      by_cases hs : p.1 ∈ SUPPORTED_LANGUAGES
      · rw [if_pos hs] at hacc
        dsimp only at hacc
        by_cases hr : calculateLanguageWordRatioQ content p.1 > 3 / 10
        · rw [if_pos hr] at hacc
          cases acc with
          | none =>
            dsimp only at hacc
            have hb : b = ⟨p.1, clamp0100 (jsRound (p.2 * 100)),
                calculateLanguageWordRatioQ content p.1⟩ := by
              injection hacc with h'
              exact h'.symm
            subst hb
            exact Or.inr ⟨p, List.mem_cons_self _ _, rfl, hs, rfl, rfl, hr⟩
          | some b0 =>
            dsimp only at hacc
            by_cases hw : calculateLanguageWordRatioQ content p.1 > b0.wordRatioQ
            · rw [if_pos hw] at hacc
              have hb : b = ⟨p.1, clamp0100 (jsRound (p.2 * 100)),
                  calculateLanguageWordRatioQ content p.1⟩ := by
                injection hacc with h'
                exact h'.symm
              subst hb
              exact Or.inr ⟨p, List.mem_cons_self _ _, rfl, hs, rfl, rfl, hr⟩
            · rw [if_neg hw] at hacc
              exact Or.inl hacc
        · rw [if_neg hr] at hacc
          exact Or.inl hacc
      · rw [if_neg hs] at hacc
        exact Or.inl hacc
    · exact Or.inr ⟨q, List.mem_cons_of_mem _ hq, hprop⟩

/-- Unfolding of `detect` on a detectable, non-blank input whose supported
candidate list is non-empty. -/
theorem detect_eval (content : String) (francOut : List (String × Rat)) (l0 : String)
    (s0 : Rat) (t : List (String × Rat)) (dl : String) (sc : Rat)
    (restF : List (String × Rat))
    (hnb : isBlankContent content = false)
    (hcons : francOut = (l0, s0) :: t)
    (hund : l0 ≠ "und")
    (hfil : francOut.filter (fun p => p.1 ∈ SUPPORTED_LANGUAGES) = (dl, sc) :: restF) :
    detect content francOut =
      (if clamp0100 (jsRound (sc * 100)) < 15 then
        match findBestLanguageByWords content ((dl, sc) :: restF) with
        | some b => ⟨b.language, b.confidence⟩
        | none => ⟨dl, clamp0100 (jsRound (sc * 100))⟩
      else ⟨dl, clamp0100 (jsRound (sc * 100))⟩) := by
  subst hcons
  unfold detect
  rw [if_neg (by simp [hnb])]
  dsimp only
  rw [if_neg hund, hfil]

theorem tok31 : extractWordTokens content31 =
    List.replicate 31 "le" ++ List.replicate 69 "qq" := by decide

theorem tok30 : extractWordTokens content30 =
    List.replicate 30 "le" ++ List.replicate 70 "qq" := by decide

theorem ratio31_fra : calculateLanguageWordRatioQ content31 "fra" = 31 / 100 := by
  have hfind : COMMON_WORDS.find? (fun p => p.1 = "fra") = some ("fra", commonWords_fra) := by
    decide
  have hcount : ((List.replicate 31 "le" ++ List.replicate 69 "qq").filter
      (fun w => commonWords_fra.contains w)).length = 31 := by decide
  have hlen : (List.replicate 31 "le" ++ List.replicate 69 "qq").length = 100 := by decide
  unfold calculateLanguageWordRatioQ
  rw [hfind]
  dsimp only
  simp only [wordRatioAgainst, tok31]
  rw [if_neg (by decide), hcount, hlen]
  norm_num

theorem ratio31_eng : calculateLanguageWordRatioQ content31 "eng" = 0 := by
  have hfind : COMMON_WORDS.find? (fun p => p.1 = "eng") = some ("eng", commonWords_eng) := by
    decide
  have hcount : ((List.replicate 31 "le" ++ List.replicate 69 "qq").filter
      (fun w => commonWords_eng.contains w)).length = 0 := by decide
  unfold calculateLanguageWordRatioQ
  rw [hfind]
  dsimp only
  simp only [wordRatioAgainst, tok31]
  rw [if_neg (by decide), hcount]
  norm_num

theorem ratio30_fra : calculateLanguageWordRatioQ content30 "fra" = 3 / 10 := by
  have hfind : COMMON_WORDS.find? (fun p => p.1 = "fra") = some ("fra", commonWords_fra) := by
    decide
  have hcount : ((List.replicate 30 "le" ++ List.replicate 70 "qq").filter
      (fun w => commonWords_fra.contains w)).length = 30 := by decide
  have hlen : (List.replicate 30 "le" ++ List.replicate 70 "qq").length = 100 := by decide
  unfold calculateLanguageWordRatioQ
  rw [hfind]
  dsimp only
  simp only [wordRatioAgainst, tok30]
  rw [if_neg (by decide), hcount, hlen]
  norm_num

theorem ratio30_eng : calculateLanguageWordRatioQ content30 "eng" = 0 := by
  have hfind : COMMON_WORDS.find? (fun p => p.1 = "eng") = some ("eng", commonWords_eng) := by
    decide
  have hcount : ((List.replicate 30 "le" ++ List.replicate 70 "qq").filter
      (fun w => commonWords_eng.contains w)).length = 0 := by decide
  unfold calculateLanguageWordRatioQ
  rw [hfind]
  dsimp only
  simp only [wordRatioAgainst, tok30]
  rw [if_neg (by decide), hcount]
  norm_num

theorem consider_eng31_none :
    considerCandidate content31 none ("eng", (14 : Rat) / 100) = none := by
  unfold considerCandidate
  rw [if_pos (by decide : (("eng", (14 : Rat) / 100).1 ∈ SUPPORTED_LANGUAGES))]
  dsimp only
  rw [ratio31_eng, if_neg (by norm_num)]

theorem consider_fra31_some :
    considerCandidate content31 none ("fra", (7 : Rat) / 100) =
      some ⟨"fra", 7, 31 / 100⟩ := by
  unfold considerCandidate
  rw [if_pos (by decide : (("fra", (7 : Rat) / 100).1 ∈ SUPPORTED_LANGUAGES))]
  dsimp only
  rw [ratio31_fra, if_pos (by norm_num : (31 : Rat) / 100 > 3 / 10)]
  have : clamp0100 (jsRound ((7 : Rat) / 100 * 100)) = 7 := by
    norm_num [clamp0100, jsRound]
  rw [this]

theorem fb31 : findBestLanguageByWords content31 [("eng", (14 : Rat) / 100),
    ("fra", (7 : Rat) / 100)] = some ⟨"fra", 7, 31 / 100⟩ := by
  unfold findBestLanguageByWords
  rw [List.foldl_cons, consider_eng31_none, List.foldl_cons, consider_fra31_some,
    List.foldl_nil]

theorem fb30 : findBestLanguageByWords content30 [("eng", (14 : Rat) / 100),
    ("fra", (7 : Rat) / 100)] = none := by
  have h1 : considerCandidate content30 none ("eng", (14 : Rat) / 100) = none := by
    unfold considerCandidate
    rw [if_pos (by decide : (("eng", (14 : Rat) / 100).1 ∈ SUPPORTED_LANGUAGES))]
    dsimp only
    rw [ratio30_eng, if_neg (by norm_num)]
  have h2 : considerCandidate content30 none ("fra", (7 : Rat) / 100) = none := by
    unfold considerCandidate
    rw [if_pos (by decide : (("fra", (7 : Rat) / 100).1 ∈ SUPPORTED_LANGUAGES))]
    dsimp only
    rw [ratio30_fra, if_neg (by norm_num : ¬((3 : Rat) / 10 > 3 / 10))]
  unfold findBestLanguageByWords
  rw [List.foldl_cons, h1, List.foldl_cons, h2, List.foldl_nil]

theorem filter_supported_eng_fra (x y : Rat) :
    List.filter (fun p => decide (p.1 ∈ SUPPORTED_LANGUAGES))
      [("eng", x), ("fra", y)] = [("eng", x), ("fra", y)] := by
  simp [SUPPORTED_LANGUAGES]

theorem detect31_14 :
    detect content31 [("eng", (14 : Rat) / 100), ("fra", (7 : Rat) / 100)] =
      ⟨"fra", 7⟩ := by
  rw [detect_eval content31 _ "eng" ((14 : Rat) / 100) [("fra", (7 : Rat) / 100)]
    "eng" ((14 : Rat) / 100) [("fra", (7 : Rat) / 100)] (by decide) rfl (by decide)
    (filter_supported_eng_fra _ _)]
  rw [if_pos (by norm_num [clamp0100, jsRound] :
    clamp0100 (jsRound ((14 : Rat) / 100 * 100)) < 15)]
  rw [fb31]

theorem detect31_15 :
    detect content31 [("eng", (15 : Rat) / 100), ("fra", (7 : Rat) / 100)] =
      ⟨"eng", 15⟩ := by
  rw [detect_eval content31 _ "eng" ((15 : Rat) / 100) [("fra", (7 : Rat) / 100)]
    "eng" ((15 : Rat) / 100) [("fra", (7 : Rat) / 100)] (by decide) rfl (by decide)
    (filter_supported_eng_fra _ _)]
  rw [if_neg (by norm_num [clamp0100, jsRound] :
    ¬ clamp0100 (jsRound ((15 : Rat) / 100 * 100)) < 15)]
  have : clamp0100 (jsRound ((15 : Rat) / 100 * 100)) = 15 := by
    norm_num [clamp0100, jsRound]
  rw [this]

theorem detect30_14 :
    detect content30 [("eng", (14 : Rat) / 100), ("fra", (7 : Rat) / 100)] =
      ⟨"eng", 14⟩ := by
  rw [detect_eval content30 _ "eng" ((14 : Rat) / 100) [("fra", (7 : Rat) / 100)]
    "eng" ((14 : Rat) / 100) [("fra", (7 : Rat) / 100)] (by decide) rfl (by decide)
    (filter_supported_eng_fra _ _)]
  rw [if_pos (by norm_num [clamp0100, jsRound] :
    clamp0100 (jsRound ((14 : Rat) / 100 * 100)) < 15)]
  rw [fb30]
  have : clamp0100 (jsRound ((14 : Rat) / 100 * 100)) = 14 := by
    norm_num [clamp0100, jsRound]
  rw [this]

/-- C2: the lexical override of `detect` fires exactly when the rescaled
detector confidence is strictly below 15 and some supported candidate's
word-match ratio is strictly above 0.30; a firing override returns that
candidate's own rescaled detector score (`round(score·100)` clamped to
`[0,100]`), never the ratio. Concretely: detector confidence exactly 14 with
a ratio of exactly 0.31 for supported `fra` overrides `eng → fra` with
confidence 7 (`fra`'s rescaled score); confidence exactly 15, or a ratio of
exactly 0.30, leaves the detector choice untouched (boundary exclusivity both
ways). -/
theorem language_override_boundary :
    (∀ (content : String) (results : List (String × Rat)),
      (findBestLanguageByWords content results).isSome = true ↔
        ∃ p ∈ results, p.1 ∈ SUPPORTED_LANGUAGES ∧
          calculateLanguageWordRatioQ content p.1 > 3 / 10) ∧
    (∀ (content : String) (results : List (String × Rat)) (b : BestMatch),
      findBestLanguageByWords content results = some b →
        ∃ p ∈ results, p.1 = b.language ∧ p.1 ∈ SUPPORTED_LANGUAGES ∧
          b.confidence = clamp0100 (jsRound (p.2 * 100)) ∧
          b.wordRatioQ = calculateLanguageWordRatioQ content p.1 ∧
          b.wordRatioQ > 3 / 10) ∧
    (∀ (content : String) (francOut : List (String × Rat)) (l0 : String) (s0 : Rat)
        (t : List (String × Rat)) (dl : String) (sc : Rat) (restF : List (String × Rat)),
      isBlankContent content = false →
      francOut = (l0, s0) :: t →
      l0 ≠ "und" →
      francOut.filter (fun p => p.1 ∈ SUPPORTED_LANGUAGES) = (dl, sc) :: restF →
        ((15 ≤ clamp0100 (jsRound (sc * 100)) →
          detect content francOut = ⟨dl, clamp0100 (jsRound (sc * 100))⟩) ∧
         (clamp0100 (jsRound (sc * 100)) < 15 →
          ∀ b, findBestLanguageByWords content ((dl, sc) :: restF) = some b →
            detect content francOut = ⟨b.language, b.confidence⟩) ∧
         (clamp0100 (jsRound (sc * 100)) < 15 →
          findBestLanguageByWords content ((dl, sc) :: restF) = none →
            detect content francOut = ⟨dl, clamp0100 (jsRound (sc * 100))⟩))) ∧
    detect content31 [("eng", (14 : Rat) / 100), ("fra", (7 : Rat) / 100)] = ⟨"fra", 7⟩ ∧
    detect content31 [("eng", (15 : Rat) / 100), ("fra", (7 : Rat) / 100)] = ⟨"eng", 15⟩ ∧
    detect content30 [("eng", (14 : Rat) / 100), ("fra", (7 : Rat) / 100)] = ⟨"eng", 14⟩ := by
  refine ⟨?_, ?_, ?_, detect31_14, detect31_15, detect30_14⟩
  · intro content results
    have h := foldl_consider_isSome content results none
    simpa [findBestLanguageByWords] using h
  · intro content results b hb
    have h := foldl_consider_some content results none b (by simpa [findBestLanguageByWords]
      using hb)
    rcases h with h | h
    · exact absurd h (by simp)
    · exact h
  · intro content francOut l0 s0 t dl sc restF hnb hcons hund hfil
    have heval := detect_eval content francOut l0 s0 t dl sc restF hnb hcons hund hfil
    refine ⟨fun hge => ?_, fun hlt b hb => ?_, fun hlt hnone => ?_⟩
    · rw [heval, if_neg (by omega)]
    · rw [heval, if_pos hlt, hb]
    · rw [heval, if_pos hlt, hnone]

/-- Witness for C2: the override machinery evaluated at the concrete 0.31
boundary content — the candidate loop yields a match for `fra` there. -/
theorem language_override_boundary_witness :
    (findBestLanguageByWords content31
      [("eng", (14 : Rat) / 100), ("fra", (7 : Rat) / 100)]).isSome = true :=
  (language_override_boundary.1 content31
    [("eng", (14 : Rat) / 100), ("fra", (7 : Rat) / 100)]).mpr
    ⟨("fra", (7 : Rat) / 100), List.mem_cons_of_mem _ (List.mem_cons_self _ _),
      by decide, by rw [ratio31_fra]; norm_num⟩

/-! ### Orchestrator lemmas (C5–C7) -/

theorem storeLookup_insert_self {α : Type} (store : StoreOf α) (now : Nat) (key : String)
    (v : α) (e : Nat) :
    storeLookup (storeInsert store key v e) now key = if now < e then some v else none := by
  unfold storeLookup storeInsert
  rw [List.find?_cons_of_pos _ (by simp)]

/-- The per-match loop only ever touches the redirect store: connectivity,
failure oracle and analysis store pass through unchanged. -/
theorem extractUrlsGo_preserves (env : AnalyzeEnv) (now : Nat) :
    ∀ (ms : List String) (st : CacheState) (fu sh : List String)
      (lg : List (String × RedirectOutcome)),
      (extractUrlsGo env now ms st fu sh lg).2.1.isConnected = st.isConnected ∧
      (extractUrlsGo env now ms st fu sh lg).2.1.failGet = st.failGet ∧
      (extractUrlsGo env now ms st fu sh lg).2.1.failSet = st.failSet ∧
      (extractUrlsGo env now ms st fu sh lg).2.1.analysisStore = st.analysisStore := by
  intro ms
  induction ms with
  | nil => intro st fu sh lg; simp [extractUrlsGo]
  | cons m rest ih =>
    intro st fu sh lg
    unfold extractUrlsGo
    dsimp only
    cases hp : parseUrl (ensureProtocol m) with
    | none =>
      exact ih st _ _ _
    | some parts =>
      dsimp only
      by_cases hs : isShortenerHost env.shortenerDomains parts.hostname
      · rw [if_pos hs]
        have hfr := followRedirects_preserves env.http st now (ensureProtocol m)
        have hih := ih (followRedirects env.http st now (ensureProtocol m)).2.1
          (fu ++ [(followRedirects env.http st now (ensureProtocol m)).1.finalUrl])
          (if parts.hostname ∈ sh then sh else sh ++ [parts.hostname])
          (lg ++ [(ensureProtocol m, (followRedirects env.http st now (ensureProtocol m)).1)])
        refine ⟨?_, ?_, ?_, ?_⟩
        · rw [hih.1, hfr.1.1]
        · rw [hih.2.1, hfr.1.2.1]
        · rw [hih.2.2.1, hfr.1.2.2.1]
        · rw [hih.2.2.2, hfr.2]
      · rw [if_neg hs]
        exact ih st _ _ _

/-- With a disconnected cache client the per-match loop leaves the cache
state untouched. -/
theorem extractUrlsGo_disconnected (env : AnalyzeEnv) (now : Nat) :
    ∀ (ms : List String) (st : CacheState) (fu sh : List String)
      (lg : List (String × RedirectOutcome)), st.isConnected = false →
      (extractUrlsGo env now ms st fu sh lg).2.1 = st := by
  intro ms
  induction ms with
  | nil => intro st fu sh lg _; simp [extractUrlsGo]
  | cons m rest ih =>
    intro st fu sh lg h
    unfold extractUrlsGo
    dsimp only
    cases hp : parseUrl (ensureProtocol m) with
    | none =>
      exact ih st _ _ _ h
    | some parts =>
      dsimp only
      by_cases hs : isShortenerHost env.shortenerDomains parts.hostname
      · rw [if_pos hs]
        rw [followRedirects_disconnected env.http st now (ensureProtocol m) h]
        exact ih st _ _ _ h
      · rw [if_neg hs]
        exact ih st _ _ _ h

theorem buildAnalysis_preserves (env : AnalyzeEnv) (st : CacheState) (now : Nat)
    (lr : LanguageDetectionResult) (cached : Bool) (content : String) :
    (buildAnalysis env st now lr cached content).2.isConnected = st.isConnected ∧
    (buildAnalysis env st now lr cached content).2.failGet = st.failGet ∧
    (buildAnalysis env st now lr cached content).2.failSet = st.failSet ∧
    (buildAnalysis env st now lr cached content).2.analysisStore = st.analysisStore := by
  unfold buildAnalysis buildEnhancedAnalysis extractUrls
  cases hm : env.linkifyMatch content with
  | none => simp
  | some ms =>
    dsimp only
    exact extractUrlsGo_preserves env now ms st [] [] []

theorem buildAnalysis_disconnected (env : AnalyzeEnv) (st : CacheState) (now : Nat)
    (lr : LanguageDetectionResult) (cached : Bool) (content : String)
    (h : st.isConnected = false) :
    (buildAnalysis env st now lr cached content).2 = st := by
  unfold buildAnalysis buildEnhancedAnalysis extractUrls
  cases hm : env.linkifyMatch content with
  | none => simp
  | some ms =>
    dsimp only
    exact extractUrlsGo_disconnected env now ms st [] [] [] h

/-- C5: with the cache backend reachable, two `analyze` calls on the same
content within the 60-second analysis TTL yield `cached = false` then
`cached = true`, and the second response carries exactly the
language/confidence/extracted-list payload the first (miss-path) computation
produced and wrote back — only the always-overwritten `cached` (and elapsed
time, not modelled) differ. -/
theorem analysis_cache_idempotence (env : AnalyzeEnv) (st : CacheState) (t1 t2 : Nat)
    (content : String)
    (hconn : st.isConnected = true) (hfg : st.failGet = false) (hfs : st.failSet = false)
    (hmiss : storeLookup st.analysisStore t1 (generateHash content) = none)
    (httl : t2 < t1 + ANALYSIS_CACHE_TTL) :
    (analyze env st t1 content).1.analysis.cached = false ∧
    (analyze env (analyze env st t1 content).2 t2 content).1.analysis.cached = true ∧
    (analyze env (analyze env st t1 content).2 t2 content).1.analysis.language =
      (analyze env st t1 content).1.analysis.language ∧
    (analyze env (analyze env st t1 content).2 t2 content).1.analysis.lang_certainity =
      (analyze env st t1 content).1.analysis.lang_certainity ∧
    (analyze env (analyze env st t1 content).2 t2 content).1.analysis.enhanced =
      (analyze env st t1 content).1.analysis.enhanced := by
  have hget1 : cacheGetAnalysis st t1 content = none := by
    unfold cacheGetAnalysis redisGetAnalysis
    rw [if_neg (by simp [hconn]), if_neg (by simp [hfg])]
    dsimp only
    exact hmiss
  have key : ∀ A : AnalysisDto × CacheState,
      A.2.isConnected = true → A.2.failGet = false → A.2.failSet = false →
      cacheGetAnalysis (cacheSetAnalysis A.2 t1 content A.1 ANALYSIS_CACHE_TTL) t2 content =
        some A.1 := by
    intro A hc hg hs2
    have hst2 : cacheSetAnalysis A.2 t1 content A.1 ANALYSIS_CACHE_TTL =
        { A.2 with
          analysisStore := storeInsert A.2.analysisStore (generateHash content) A.1 (t1 + ANALYSIS_CACHE_TTL) } := by
      unfold cacheSetAnalysis redisSetexAnalysis
      rw [if_neg (by simp [hc]), if_neg (by simp [hs2])]
    rw [hst2]
    unfold cacheGetAnalysis redisGetAnalysis
    rw [if_neg (by simp [hc]), if_neg (by simp [hg])]
    dsimp only
    rw [storeLookup_insert_self, if_pos httl]
  have hbp := buildAnalysis_preserves env st t1 (detect content (env.franc content)) false
    content
  have hkey := key (buildAnalysis env st t1 (detect content (env.franc content)) false content)
    (by rw [hbp.1, hconn]) (by rw [hbp.2.1, hfg]) (by rw [hbp.2.2.1, hfs])
  simp only [analyze, hget1, hkey]
  simp [buildResponse]

/-- Witness for C5 at a concrete environment, content and call times. -/
theorem analysis_cache_idempotence_witness :
    (analyze trivialEnv emptyCache 0 "hello").1.analysis.cached = false ∧
    (analyze trivialEnv (analyze trivialEnv emptyCache 0 "hello").2 30 "hello").1.analysis.cached
      = true := by
  have h := analysis_cache_idempotence trivialEnv emptyCache 0 30 "hello" rfl rfl rfl rfl
    (by decide)
  exact ⟨h.1, h.2.1⟩

/-- C7: with the cache backend unreachable (client not connected), `analyze`
still returns a fully-formed response — `cached = false`, the detector's
language/confidence, the extractor outputs, the fixed response shell — with
the cache state untouched; nothing is thrown (every operation in the model
is total by the catch structure of the cache client and redirect engine). -/
theorem analyze_degraded (env : AnalyzeEnv) (st : CacheState) (now : Nat) (content : String)
    (h : st.isConnected = false) :
    (analyze env st now content).1.analysis.cached = false ∧
    (analyze env st now content).1.analysis.language =
      (detect content (env.franc content)).language ∧
    (analyze env st now content).1.analysis.lang_certainity =
      (detect content (env.franc content)).confidence ∧
    (analyze env st now content).1.analysis.enhanced.urls =
      (extractUrls env st now content).1.1 ∧
    (analyze env st now content).1.analysis.enhanced.phones = env.phonesOf content ∧
    (analyze env st now content).1.analysis.enhanced.public_ips = env.publicIPsOf content ∧
    (analyze env st now content).1.analysis.enhanced.shortener_used =
      (extractUrls env st now content).1.2 ∧
    (analyze env st now content).1.status = "safe" ∧
    (analyze env st now content).2 = st := by
  have hget : cacheGetAnalysis st now content = none := by
    unfold cacheGetAnalysis
    rw [if_pos (by simp [h])]
  have hb := buildAnalysis_disconnected env st now (detect content (env.franc content)) false
    content h
  have hset : cacheSetAnalysis
      (buildAnalysis env st now (detect content (env.franc content)) false content).2 now
      content
      (buildAnalysis env st now (detect content (env.franc content)) false content).1
      ANALYSIS_CACHE_TTL =
      (buildAnalysis env st now (detect content (env.franc content)) false content).2 := by
    unfold cacheSetAnalysis
    rw [if_pos (by simp [hb, h])]
  simp only [analyze, hget, hset]
  refine ⟨by simp [buildResponse], ?_, ?_, ?_, ?_, ?_, ?_, by simp [buildResponse], hb⟩
  all_goals simp [buildResponse, buildAnalysis, buildEnhancedAnalysis]

/-- Witness for C7 at a concrete disconnected state. -/
theorem analyze_degraded_witness :
    (analyze trivialEnv ⟨false, false, false, false, false, "PONG", [], []⟩ 0 "hi").1.analysis.cached
      = false ∧
    (analyze trivialEnv ⟨false, false, false, false, false, "PONG", [], []⟩ 0 "hi").2 =
      ⟨false, false, false, false, false, "PONG", [], []⟩ := by
  have h := analyze_degraded trivialEnv ⟨false, false, false, false, false, "PONG", [], []⟩ 0
    "hi" rfl
  exact ⟨h.1, h.2.2.2.2.2.2.2.2⟩

/-- Full behavioural specification of the per-match loop by induction:
accumulator membership is monotone, the shortener set stays duplicate-free,
and every match is processed — shorteners are sent to the redirect engine
(appearing in the invocation log) and contribute their resolved `finalUrl`,
everything else passes through unchanged; every log entry beyond the initial
accumulator is a genuine `followRedirects` result. -/
theorem extractUrlsGo_spec (env : AnalyzeEnv) (now : Nat) :
    ∀ (ms : List String) (st : CacheState) (fu sh : List String)
      (lg : List (String × RedirectOutcome)),
      (∀ x ∈ fu, x ∈ (extractUrlsGo env now ms st fu sh lg).1.1) ∧
      (∀ x ∈ sh, x ∈ (extractUrlsGo env now ms st fu sh lg).1.2) ∧
      (sh.Nodup → (extractUrlsGo env now ms st fu sh lg).1.2.Nodup) ∧
      (∀ e ∈ lg, e ∈ (extractUrlsGo env now ms st fu sh lg).2.2) ∧
      (∀ m ∈ ms,
        (parseUrl (ensureProtocol m) = none →
          ensureProtocol m ∈ (extractUrlsGo env now ms st fu sh lg).1.1) ∧
        (∀ parts, parseUrl (ensureProtocol m) = some parts →
          (isShortenerHost env.shortenerDomains parts.hostname = false →
            ensureProtocol m ∈ (extractUrlsGo env now ms st fu sh lg).1.1) ∧
          (isShortenerHost env.shortenerDomains parts.hostname = true →
            parts.hostname ∈ (extractUrlsGo env now ms st fu sh lg).1.2 ∧
            ∃ out, (ensureProtocol m, out) ∈ (extractUrlsGo env now ms st fu sh lg).2.2 ∧
              out.finalUrl ∈ (extractUrlsGo env now ms st fu sh lg).1.1))) ∧
      (∀ e ∈ (extractUrlsGo env now ms st fu sh lg).2.2,
        e ∈ lg ∨ ∃ s0 : CacheState, (followRedirects env.http s0 now e.1).1 = e.2) := by
  intro ms
  induction ms with
  | nil =>
    intro st fu sh lg
    simp only [extractUrlsGo]
    exact ⟨fun x hx => hx, fun x hx => hx, fun hn => hn, fun e he => he,
      fun m hm => absurd hm (List.not_mem_nil m), fun e he => Or.inl he⟩
  | cons m rest ih =>
    intro st fu sh lg
    unfold extractUrlsGo
    dsimp only
    cases hp : parseUrl (ensureProtocol m) with
    | none =>
      obtain ⟨h1, h2, h3, h4, h5, h6⟩ := ih st (fu ++ [ensureProtocol m]) sh lg
      refine ⟨fun x hx => h1 x (by simp [hx]), h2, h3, h4, ?_, h6⟩
      intro m0 hm0
      rcases List.mem_cons.mp hm0 with hm0 | hm0
      · subst hm0
        refine ⟨fun _ => h1 _ (by simp), fun parts hparts => ?_⟩
        rw [hp] at hparts
        exact absurd hparts (by simp)
      · exact h5 m0 hm0
    | some pu =>
      dsimp only
      by_cases hs : isShortenerHost env.shortenerDomains pu.hostname
      · rw [if_pos hs]
        obtain ⟨h1, h2, h3, h4, h5, h6⟩ :=
          ih (followRedirects env.http st now (ensureProtocol m)).2.1
            (fu ++ [(followRedirects env.http st now (ensureProtocol m)).1.finalUrl])
            (if pu.hostname ∈ sh then sh else sh ++ [pu.hostname])
            (lg ++ [(ensureProtocol m, (followRedirects env.http st now (ensureProtocol m)).1)])
        have hshmem : ∀ x ∈ sh, x ∈ (if pu.hostname ∈ sh then sh else sh ++ [pu.hostname]) := by
          intro x hx
          by_cases hmem : pu.hostname ∈ sh <;> simp [hmem, hx]
        refine ⟨fun x hx => h1 x (by simp [hx]), fun x hx => h2 x (hshmem x hx), ?_, ?_, ?_, ?_⟩
        · intro hn
          apply h3
          by_cases hmem : pu.hostname ∈ sh
          · simpa [hmem] using hn
          · simp only [hmem, if_false]
            simp [List.nodup_append, hn, hmem]
        · intro e he
          exact h4 e (by simp [he])
        · intro m0 hm0
          rcases List.mem_cons.mp hm0 with hm0 | hm0
          · subst hm0
            refine ⟨fun hc => absurd hc (by simp [hp]), fun parts hparts => ?_⟩
            rw [hp] at hparts
            have hpp : parts = pu := by injection hparts with h0; exact h0.symm
            subst hpp
            refine ⟨fun hc => absurd hc (by simp [hs]), fun _ => ?_⟩
            constructor
            · apply h2
              by_cases hmem : parts.hostname ∈ sh <;> simp [hmem]
            · refine ⟨(followRedirects env.http st now (ensureProtocol m0)).1, ?_, ?_⟩
              · exact h4 _ (by simp)
              · exact h1 _ (by simp)
          · exact h5 m0 hm0
        · intro e he
          rcases h6 e he with hlg | hvalid
          · rcases List.mem_append.mp hlg with hlg | hnew
            · exact Or.inl hlg
            · right
              have heq : e =
                  (ensureProtocol m, (followRedirects env.http st now (ensureProtocol m)).1) := by
                simpa using hnew
              subst heq
              exact ⟨st, rfl⟩
          · exact Or.inr hvalid
      · rw [if_neg hs]
        obtain ⟨h1, h2, h3, h4, h5, h6⟩ := ih st (fu ++ [ensureProtocol m]) sh lg
        refine ⟨fun x hx => h1 x (by simp [hx]), h2, h3, h4, ?_, h6⟩
        intro m0 hm0
        rcases List.mem_cons.mp hm0 with hm0 | hm0
        · subst hm0
          refine ⟨fun hc => absurd hc (by simp [hp]), fun parts hparts => ?_⟩
          rw [hp] at hparts
          have hpp : parts = pu := by injection hparts with h0; exact h0.symm
          subst hpp
          refine ⟨fun _ => h1 _ (by simp), fun hc => absurd hc (by simp [hs])⟩
        · exact h5 m0 hm0

/-- C6: on the miss path, every linkify match whose hostname matches a
shortener domain (exactly or by dot-suffix) is sent to the redirect engine —
it appears in the invocation log, whose entries are genuine `followRedirects`
results — and the returned `finalUrl` appears in the output URL list, with
the shortener hostname recorded in the shortener set; every match whose
hostname matches no shortener domain (or does not parse) appears in the
output unchanged; both output lists are duplicate-free. -/
theorem shortener_resolution_and_dedup (env : AnalyzeEnv) (st : CacheState) (now : Nat)
    (content : String) (ms : List String)
    (hm : env.linkifyMatch content = some ms) :
    (extractUrls env st now content).1.1.Nodup ∧
    (extractUrls env st now content).1.2.Nodup ∧
    (∀ m ∈ ms,
      (parseUrl (ensureProtocol m) = none →
        ensureProtocol m ∈ (extractUrls env st now content).1.1) ∧
      (∀ parts, parseUrl (ensureProtocol m) = some parts →
        (isShortenerHost env.shortenerDomains parts.hostname = false →
          ensureProtocol m ∈ (extractUrls env st now content).1.1) ∧
        (isShortenerHost env.shortenerDomains parts.hostname = true →
          parts.hostname ∈ (extractUrls env st now content).1.2 ∧
          ∃ out, (ensureProtocol m, out) ∈ (extractUrls env st now content).2.2 ∧
            out.finalUrl ∈ (extractUrls env st now content).1.1))) ∧
    (∀ e ∈ (extractUrls env st now content).2.2,
      ∃ s0 : CacheState, (followRedirects env.http s0 now e.1).1 = e.2) := by
  obtain ⟨h1, h2, h3, h4, h5, h6⟩ := extractUrlsGo_spec env now ms st [] [] []
  simp only [extractUrls, hm]
  refine ⟨dedupFirst_nodup _, h3 (by simp), ?_, ?_⟩
  · intro m hmem
    obtain ⟨ha, hb⟩ := h5 m hmem
    refine ⟨fun hx => (mem_dedupFirst _ _).mpr (ha hx), fun parts hparts => ?_⟩
    obtain ⟨hc, hd⟩ := hb parts hparts
    refine ⟨fun hx => (mem_dedupFirst _ _).mpr (hc hx), fun hx => ?_⟩
    obtain ⟨he, out, hout, hfin⟩ := hd hx
    exact ⟨he, out, hout, (mem_dedupFirst _ _).mpr hfin⟩
  · intro e he
    rcases h6 e he with h | h
    · exact absurd h (List.not_mem_nil e)
    · exact h

/-- Witness for C6: in the concrete environment the ported `bit.ly` URL is
classified by its hostname — `bit.ly` is recorded in the shortener set — and
the output URL list is duplicate-free. -/
theorem shortener_resolution_and_dedup_witness :
    "bit.ly" ∈ (extractUrls c6Env emptyCache 0 "msg").1.2 ∧
    (extractUrls c6Env emptyCache 0 "msg").1.1.Nodup := by
  have h := shortener_resolution_and_dedup c6Env emptyCache 0 "msg" ["http://bit.ly:8080/x"]
    rfl
  refine ⟨?_, h.1⟩
  have h2 := ((h.2.2.1 "http://bit.ly:8080/x" (by simp)).2
    ⟨"http:", "bit.ly:8080", "bit.ly", "/x"⟩ (by decide)).2 (by decide)
  exact h2.1
